import Mathlib

/-!
Verification development for the cached filesystem path graph library
(`path-scurry`).  The definitions below are a shallow embedding of
`src/index.ts`: Path nodes are identified by their index in an append-only
node store, the children-array LRU is an association list from parent id to
a `Children` value (an ordered id list plus the `provisional` split index),
and every filesystem access is parameterized by the response the FS
provider would give, so that state transitions are pure functions.

The embedding models the POSIX platform profile (`PathPosix` /
`PathScurryPosix`): separator `'/'`, root string `'/'`.  Unicode NFKD
normalization (`String.prototype.normalize`) is platform code, not part of
the repository; it is abstracted as the `norm` field of the system state.
The numeric stat fields copied by `#applyStat` (dev, ino, …) are not
tracked, only the type/state word which they influence; no claim concerns
the numeric fields themselves.
-/

set_option maxHeartbeats 1000000
set_option maxRecDepth 8192

namespace PS

/-! ### Type/state bits (source lines 123-152) -/

def UNKNOWN : Nat := 0
def IFIFO : Nat := 1
def IFCHR : Nat := 2
def IFDIR : Nat := 4
def IFBLK : Nat := 6
def IFREG : Nat := 8
def IFLNK : Nat := 10
def IFSOCK : Nat := 12
def IFMT : Nat := 15

def READDIR_CALLED : Nat := 16
def LSTAT_CALLED : Nat := 32
def ENOTDIR : Nat := 64
def ENOENT : Nat := 128
def ENOREADLINK : Nat := 256
def ENOREALPATH : Nat := 512

def ENOCHILD : Nat := ENOTDIR ||| ENOENT ||| ENOREALPATH
def TYPEMASK : Nat := 1023

/-- The JS source uses `IFMT_UNKNOWN = ~IFMT` and always combines it with
type words that fit in the low ten bits (`#type = type & TYPEMASK` in the
constructor, and every later update only sets bits below `TYPEMASK`), so
within this model the mask is the ten-bit complement of `IFMT`. -/
def IFMT_UNKNOWN : Nat := TYPEMASK ^^^ IFMT

/-- Likewise `~READDIR_CALLED` restricted to the ten type bits, used by
`children()` when it rebuilds an evicted list. -/
def NOT_READDIR_CALLED : Nat := TYPEMASK ^^^ READDIR_CALLED

/-! ### Dirent entries and `entToType` (source lines 154-169) -/

inductive DirentKind where
  | file
  | dir
  | symlink
  | charDev
  | blockDev
  | socket
  | fifo
  | unknown
deriving DecidableEq, Repr

/-- `entToType` maps the `isFile()/isDirectory()/...` tests of a Dirent or
Stats object to the S_IFMT nibble. -/
def entToType : DirentKind → Nat
  | .file => IFREG
  | .dir => IFDIR
  | .symlink => IFLNK
  | .charDev => IFCHR
  | .blockDev => IFBLK
  | .socket => IFSOCK
  | .fifo => IFIFO
  | .unknown => UNKNOWN

/-- A directory entry as returned by the FS provider's `readdir`
(`withFileTypes` variant): a name together with its entry type. -/
structure Dirent where
  name : String
  kind : DirentKind
deriving DecidableEq, Repr

/-! ### Path nodes and system state -/

/-- One Path object.  `parent` is `none` exactly for roots.  `fullpathC`
is the memoized `#fullpath` slot (`undefined` = `none`).  `cbq` and
`inFlight` model `#onReaddirCB` (callback tokens) and
`#readdirCBInFlight`. -/
structure PSNode where
  name : String
  matchName : String
  parent : Option Nat
  typ : Nat
  fullpathC : Option String
  linkTarget : Option Nat
  realpathC : Option Nat
  cbq : List Nat
  inFlight : Bool
deriving Repr

instance : Inhabited PSNode :=
  ⟨{ name := "", matchName := "", parent := none, typ := 0,
     fullpathC := none, linkTarget := none, realpathC := none,
     cbq := [], inFlight := false }⟩

/-- A children value: array of child ids plus the `provisional` split
index. -/
structure Children where
  ids : List Nat
  provisional : Nat
deriving DecidableEq, Repr

/-- The whole-graph state.  `nodes` is the append-only node store (a Path
object's identity is its index), `childMap` the children-array cache
keyed by parent id, `cwdId` the scurry cwd, and `resolveCache` the
string-resolve LRU.  `norm` abstracts NFKD normalization and `nocase`
selects the case-insensitive comparison mode. -/
structure Sys where
  nodes : List PSNode
  childMap : List (Nat × Children)
  cwdId : Nat
  nocase : Bool
  norm : String → String
  resolveCache : List (String × String)

def getN (s : Sys) (i : Nat) : PSNode := s.nodes.getD i default

def typOf (s : Sys) (i : Nat) : Nat := (getN s i).typ

/-- In-place list update used for node mutation. -/
def listModify (f : α → α) : Nat → List α → List α
  | _, [] => []
  | 0, x :: xs => f x :: xs
  | n+1, x :: xs => x :: listModify f n xs

def setN (s : Sys) (i : Nat) (f : PSNode → PSNode) : Sys :=
  { s with nodes := listModify f i s.nodes }

def updTyp (s : Sys) (i : Nat) (f : Nat → Nat) : Sys :=
  setN s i fun n => { n with typ := f n.typ }

/-! ### The children cache -/

def cmLookup : List (Nat × Children) → Nat → Option Children
  | [], _ => none
  | (q, c) :: rest, p => if q = p then some c else cmLookup rest p

def cmSet : List (Nat × Children) → Nat → Children → List (Nat × Children)
  | [], p, c => [(p, c)]
  | (q, d) :: rest, p, c =>
    if q = p then (p, c) :: rest else (q, d) :: cmSet rest p c

/-- LRU eviction of one parent's children list (the cache dropping an
entry under memory pressure). -/
def cmErase : List (Nat × Children) → Nat → List (Nat × Children)
  | [], _ => []
  | (q, d) :: rest, p => if q = p then cmErase rest p else (q, d) :: cmErase rest p

def evict (s : Sys) (p : Nat) : Sys :=
  { s with childMap := cmErase s.childMap p }

/-- `children()` (source lines 491-500): return the cached list, or on a
cache miss store a fresh empty list and clear the READDIR_CALLED bit. -/
def childrenOf (s : Sys) (i : Nat) : Children × Sys :=
  match cmLookup s.childMap i with
  | some c => (c, s)
  | none =>
    let s1 := updTyp s i fun t => t &&& NOT_READDIR_CALLED
    (⟨[], 0⟩, { s1 with childMap := cmSet s1.childMap i ⟨[], 0⟩ })

def setProv (s : Sys) (i : Nat) (p : Nat) : Sys :=
  match cmLookup s.childMap i with
  | some c => { s with childMap := cmSet s.childMap i ⟨c.ids, p⟩ }
  | none => s

/-! ### Name matching -/

/-- Lower-casing as a structural map over the characters
(`String.prototype.toLowerCase` of the ASCII scenarios; written as a
`List.map` so that it evaluates by kernel reduction). -/
def toLowerS (s : String) : String := String.mk (s.data.map Char.toLower)

/-- `normalize` / `normalizeNocase` applied to a path part: the match key
(`#matchName` of a node is the match key of its name). -/
def matchKey (s : Sys) (str : String) : String :=
  if s.nocase then s.norm (toLowerS str) else s.norm str

/-- Linear scan of a children list for a node whose `#matchName` equals
the key (the loop inside `child()`). -/
def findMatch (s : Sys) : List Nat → String → Option Nat
  | [], _ => none
  | j :: rest, key =>
    if (getN s j).matchName = key then some j else findMatch s rest key

/-! ### `canReaddir` (source lines 1244-1254) -/

def canReaddirT (t : Nat) : Bool :=
  if t &&& ENOCHILD != 0 then false
  else
    let ifmt := IFMT &&& t
    if !(ifmt == UNKNOWN || ifmt == IFDIR || ifmt == IFLNK) then false
    else true

/-! ### `child()` (source lines 515-555) -/

/-- `child(pathPart)`: `''`/`'.'` return self, `'..'` the parent (or self
at a root); otherwise return the existing child with the same match key,
or append a fresh provisional UNKNOWN child (born ENOENT when the parent
cannot be readdir'd), without bumping `provisional`.  The fresh child's
fullpath is pre-computed from the parent's memoized fullpath when that is
known.  (The `opts.fullpath` passed by callers is always overwritten by
this computed value in the source's `{ ...opts, parent: this, fullpath }`
literal, so it is not a parameter here.) -/
def child (s : Sys) (p : Nat) (part : String) : Nat × Sys :=
  if part = "" ∨ part = "." then (p, s)
  else if part = ".." then
    (match (getN s p).parent with | some q => q | none => p, s)
  else
    let cs := childrenOf s p
    let s1 := cs.2
    let key := matchKey s1 part
    match findMatch s1 cs.1.ids key with
    | some j => (j, s1)
    | none =>
      let sep := if (getN s1 p).parent.isSome then "/" else ""
      let fp := (getN s1 p).fullpathC.map fun v => v ++ sep ++ part
      let t0 := if canReaddirT (typOf s1 p) then UNKNOWN &&& TYPEMASK
                else (UNKNOWN &&& TYPEMASK) ||| ENOENT
      let node : PSNode :=
        { name := part, matchName := key, parent := some p, typ := t0,
          fullpathC := fp, linkTarget := none, realpathC := none,
          cbq := [], inFlight := false }
      let newId := s1.nodes.length
      let s2 := { s1 with
        nodes := s1.nodes ++ [node],
        childMap := cmSet s1.childMap p ⟨cs.1.ids ++ [newId], cs.1.provisional⟩ }
      (newId, s2)

/-! ### `resolve()` on Path nodes (source lines 462-481) -/

def startsWithSlash (str : String) : Bool :=
  match str.toList with
  | c :: _ => c = '/'
  | [] => false

/-- Splitting on `'/'`, matching JS `String.prototype.split('/')`
(`''.split('/') = ['']`). -/
def splitSlashL : List Char → List (List Char)
  | [] => [[]]
  | c :: rest =>
    if c = '/' then [] :: splitSlashL rest
    else
      match splitSlashL rest with
      | [] => [[c]]
      | h :: t => (c :: h) :: t

def splitSlash (str : String) : List String :=
  (splitSlashL str.toList).map String.mk

def resolveParts (s : Sys) (n : Nat) : List String → Nat × Sys
  | [] => (n, s)
  | p :: rest =>
    let cq := child s n p
    resolveParts cq.2 cq.1 rest

/-- `Path.resolve(path)`: strip the POSIX root portion (`'/'` when the
string is absolute, `''` otherwise), split the remainder on `'/'`, and
walk the parts with `child`, starting from the root node (id 0,
`getRoot` on POSIX always answers `this.root`) when the path was
absolute, else from the receiver. -/
def nodeResolve (s : Sys) (n : Nat) (path : String) : Nat × Sys :=
  if path = "" then (n, s)
  else if startsWithSlash path then
    resolveParts s 0 (splitSlash (String.mk path.toList.tail))
  else
    resolveParts s n (splitSlash path)

/-! ### `fullpath()` (source lines 595-607) -/

/-- The value `fullpath()` computes, as a pure function of the parent
chain (ignoring the memo slots; `fullpathM` below is the memoizing
version).  `fuel` bounds the parent-chain depth; every node's parent has
a strictly smaller id, so `i + 1` fuel always suffices for node `i`. -/
def fullpathF (s : Sys) : Nat → Nat → String
  | 0, _ => ""
  | fuel+1, i =>
    match (getN s i).parent with
    | none => (getN s i).name
    | some p =>
      fullpathF s fuel p ++
        (if (getN s p).parent = none then "" else "/") ++ (getN s i).name

/-- Memoizing `fullpath()`: return the cached slot if set, else recurse
into the parent (caching there too) and join with the separator unless
the parent is a root. -/
def fullpathM (s : Sys) : Nat → Nat → String × Sys
  | 0, _ => ("", s)
  | fuel+1, i =>
    match (getN s i).fullpathC with
    | some v => (v, s)
    | none =>
      match (getN s i).parent with
      | none =>
        let v := (getN s i).name
        (v, setN s i fun n => { n with fullpathC := some v })
      | some p =>
        let pv := fullpathM s fuel p
        let fp := pv.1 ++ (if (getN pv.2 p).parent = none then "" else "/") ++
          (getN pv.2 i).name
        (fp, setN pv.2 i fun n => { n with fullpathC := some fp })

/-! ### ENOENT / ENOTDIR propagation (source lines 865-901) -/

/-- `#markENOENT` applied to a worklist of node ids.  Processing one id
follows the source: if ENOENT is already set do nothing; otherwise set
ENOENT, clear IFMT, and (`#markChildrenENOENT`) reset the children
list's provisional index to 0 and recurse into every child.  `fuel`
bounds the recursion depth; child ids are always strictly larger than
their parent's, so `s.nodes.length` fuel reaches every descendant. -/
def markENOENTs : Nat → Sys → List Nat → Sys
  | 0, s, _ => s
  | fuel+1, s, l =>
    l.foldl (fun acc i =>
      if typOf acc i &&& ENOENT != 0 then acc
      else
        let s0 := updTyp acc i fun t => (t ||| ENOENT) &&& IFMT_UNKNOWN
        let cs := childrenOf s0 i
        let s2 := { cs.2 with childMap := cmSet cs.2.childMap i ⟨cs.1.ids, 0⟩ }
        markENOENTs fuel s2 cs.1.ids) s

/-- Processing of a single node inside the `markENOENTs` worklist. -/
def markOne (fuel : Nat) (s : Sys) (i : Nat) : Sys :=
  if typOf s i &&& ENOENT != 0 then s
  else
    let s0 := updTyp s i fun t => (t ||| ENOENT) &&& IFMT_UNKNOWN
    let cs := childrenOf s0 i
    let s2 := { cs.2 with childMap := cmSet cs.2.childMap i ⟨cs.1.ids, 0⟩ }
    markENOENTs fuel s2 cs.1.ids

/-- `#markENOENT` on a single node. -/
def markENOENT1 (fuel : Nat) (s : Sys) (i : Nat) : Sys :=
  markENOENTs fuel s [i]

/-- `#markENOTDIR` (source lines 887-901): if ENOTDIR is already set do
nothing; otherwise clear IFMT when it was DIR, set ENOTDIR, and mark all
children ENOENT (resetting provisional to 0 first). -/
def markENOTDIRF (fuel : Nat) (s : Sys) (i : Nat) : Sys :=
  if typOf s i &&& ENOTDIR != 0 then s
  else
    let t := typOf s i
    let t1 := if t &&& IFMT = IFDIR then t &&& IFMT_UNKNOWN else t
    let s1 := updTyp s i fun _ => t1 ||| ENOTDIR
    let cs := childrenOf s1 i
    let s2 := { cs.2 with childMap := cmSet cs.2.childMap i ⟨cs.1.ids, 0⟩ }
    markENOENTs fuel s2 cs.1.ids

/-- `#markENOREALPATH` (source lines 881-884). -/
def markENOREALPATHF (fuel : Nat) (s : Sys) (i : Nat) : Sys :=
  markENOTDIRF fuel (updTyp s i fun t => t ||| ENOREALPATH) i

/-- `#readdirFail` (source lines 903-912). -/
def readdirFailF (fuel : Nat) (s : Sys) (i : Nat) (code : String) : Sys :=
  if code = "ENOTDIR" ∨ code = "EPERM" then markENOTDIRF fuel s i
  else if code = "ENOENT" then markENOENT1 fuel s i
  else
    let cs := childrenOf s i
    { cs.2 with childMap := cmSet cs.2.childMap i ⟨cs.1.ids, 0⟩ }

/-- `#lstatFail` (source lines 914-925): ENOTDIR propagates to the
parent, ENOENT marks the node itself, anything else is silent. -/
def lstatFailF (fuel : Nat) (s : Sys) (i : Nat) (code : String) : Sys :=
  if code = "ENOTDIR" then
    match (getN s i).parent with
    | some p => markENOTDIRF fuel s p
    | none => s
  else if code = "ENOENT" then markENOENT1 fuel s i
  else s

/-- The type-word transformation of `#readlinkFail` (source lines
927-945): set ENOREADLINK, add ENOENT for code `'ENOENT'`, and clear the
IFMT bits for `'EINVAL'`/`'UNKNOWN'`. -/
def readlinkFailT (code : String) (t : Nat) : Nat :=
  let ter := t ||| ENOREADLINK
  let ter := if code = "ENOENT" then ter ||| ENOENT else ter
  let ter := if code = "EINVAL" ∨ code = "UNKNOWN" then ter &&& IFMT_UNKNOWN else ter
  ter

/-- `#readlinkFail` as a state transition, including the ENOTDIR
propagation to the parent. -/
def readlinkFailF (fuel : Nat) (s : Sys) (i : Nat) (code : String) : Sys :=
  let s1 := updTyp s i (readlinkFailT code)
  if code = "ENOTDIR" then
    match (getN s1 i).parent with
    | some p => markENOTDIRF fuel s1 p
    | none => s1
  else s1

/-! ### The readdir ingestion engine (source lines 947-1002) -/

/-- `#readdirAddNewChild`: allocate a node for the observed entry at the
head of the list (never provisional), set ENOTDIR when the entry type is
neither DIR, LNK nor UNKNOWN, and bump `provisional`. -/
def readdirAddNewChild (s : Sys) (i : Nat) (e : Dirent) (c : Children) : Sys :=
  let type := entToType e.kind
  let key := matchKey s e.name
  let t0 := type &&& TYPEMASK
  let t1 :=
    let ifmt := t0 &&& IFMT
    if ifmt ≠ IFDIR ∧ ifmt ≠ IFLNK ∧ ifmt ≠ UNKNOWN then t0 ||| ENOTDIR else t0
  let node : PSNode :=
    { name := e.name, matchName := key, parent := some i, typ := t1,
      fullpathC := none, linkTarget := none, realpathC := none,
      cbq := [], inFlight := false }
  let newId := s.nodes.length
  { s with
    nodes := s.nodes ++ [node],
    childMap := cmSet s.childMap i ⟨newId :: c.ids, c.provisional + 1⟩ }

/-- Remove the element at an index (the `pop`/`splice` of
`#readdirPromoteChild`). -/
def eraseIdx : List α → Nat → List α
  | [], _ => []
  | _ :: xs, 0 => xs
  | x :: xs, n+1 => x :: eraseIdx xs n

/-- `#readdirPromoteChild` (source lines 981-1002): set the IFMT bits
from the dirent while retaining every other flag, adopt the observed
spelling of the name when it differs, move the node to the head of the
list unless it already sits at the provisional boundary, and bump
`provisional`. -/
def readdirPromoteChild (s : Sys) (i : Nat) (e : Dirent) (j : Nat)
    (index : Nat) (c : Children) : Sys :=
  let s1 := setN s j fun n =>
    let v := n.name
    { n with
      typ := (n.typ &&& IFMT_UNKNOWN) ||| entToType e.kind,
      name := if v = e.name then v else e.name }
  let ids1 := if index ≠ c.provisional then j :: eraseIdx c.ids index else c.ids
  { s1 with childMap := cmSet s1.childMap i ⟨ids1, c.provisional + 1⟩ }

/-- The scan of `#readdirMaybePromoteChild`: find, in the provisional
region, the first child whose match key equals the entry's normalized
name, returning its index and id. -/
def findProv (s : Sys) (key : String) : List Nat → Nat → Option (Nat × Nat)
  | [], _ => none
  | j :: rest, q =>
    if (getN s j).matchName = key then some (q, j)
    else findProv s key rest (q + 1)

/-- `#readdirAddChild`: promote an existing provisional child when one
matches, otherwise add a new one. -/
def readdirAddChild (s : Sys) (i : Nat) (e : Dirent) : Sys :=
  let c := (cmLookup s.childMap i).getD ⟨[], 0⟩
  let key := matchKey s e.name
  match findProv s key (c.ids.drop c.provisional) c.provisional with
  | some qj => readdirPromoteChild s i e qj.2 qj.1 c
  | none => readdirAddNewChild s i e c

def readdirAddChildren (s : Sys) (i : Nat) : List Dirent → Sys
  | [] => s
  | e :: rest => readdirAddChildren (readdirAddChild s i e) i rest

/-- `#readdirSuccess` (source lines 856-863): set READDIR_CALLED and
mark every remaining provisional child ENOENT. -/
def readdirSuccessF (fuel : Nat) (s : Sys) (i : Nat) : Sys :=
  let s1 := updTyp s i fun t => t ||| READDIR_CALLED
  let c := (cmLookup s1.childMap i).getD ⟨[], 0⟩
  markENOENTs fuel s1 (c.ids.drop c.provisional)

/-! ### `readdirSync` (source lines 1217-1242) -/

/-- Result of a `readdirSync` call: the returned child ids, whether an FS
`readdir` was actually issued, and the updated state. -/
structure RdRes where
  entries : List Nat
  fsCalled : Bool
  sys : Sys

/-- `readdirSync()`, with the FS provider's response for a given fullpath
supplied by `fsq`.  Mirrors the source: bail with `[]` when
`canReaddir()` is false; return `children.slice(0, provisional)` without
IO when READDIR_CALLED is set; otherwise compute `fullpath()` (memoizing
it), issue the FS call, ingest entries on success or map the failure
code and reset `provisional` to 0 on error, and return the real
region. -/
def readdirSyncF (s : Sys) (i : Nat)
    (fsq : String → Except String (List Dirent)) : RdRes :=
  if !canReaddirT (typOf s i) then ⟨[], false, s⟩
  else
    let cs := childrenOf s i
    let s1 := cs.2
    if typOf s1 i &&& READDIR_CALLED != 0 then
      ⟨cs.1.ids.take cs.1.provisional, false, s1⟩
    else
      let fq := fullpathM s1 s1.nodes.length i
      let s2 := fq.2
      match fsq fq.1 with
      | .ok entries =>
        let s3 := readdirAddChildren s2 i entries
        let s4 := readdirSuccessF s3.nodes.length s3 i
        let c4 := (cmLookup s4.childMap i).getD ⟨[], 0⟩
        ⟨c4.ids.take c4.provisional, true, s4⟩
      | .error code =>
        let s3 := readdirFailF s2.nodes.length s2 i code
        let s4 := setProv s3 i 0
        ⟨[], true, s4⟩

/-! ### `lstat` (source lines 1033-1042, 1044-1089) -/

/-- The type-word effect of `#applyStat`: install the IFMT from the stat
mode, retain every other flag, set LSTAT_CALLED, and set ENOTDIR when
the new IFMT is neither UNKNOWN, DIR nor LNK. -/
def applyStatT (k : DirentKind) (t : Nat) : Nat :=
  let ifmt := entToType k
  let t1 := (t &&& IFMT_UNKNOWN) ||| ifmt ||| LSTAT_CALLED
  if ifmt ≠ UNKNOWN ∧ ifmt ≠ IFDIR ∧ ifmt ≠ IFLNK then t1 ||| ENOTDIR else t1

/-- `lstatSync()`: skip entirely when ENOENT is set, otherwise apply the
FS stat result (the entry kind of the mode) or map the failure code.
Returns the node on success (`this`), `none` otherwise. -/
def lstatSyncF (s : Sys) (i : Nat)
    (fsq : String → Except String DirentKind) : Option Nat × Sys :=
  if typOf s i &&& ENOENT != 0 then (none, s)
  else
    let fq := fullpathM s s.nodes.length i
    let s1 := fq.2
    match fsq fq.1 with
    | .ok k => (some i, updTyp s1 i (applyStatT k))
    | .error code => (none, lstatFailF s1.nodes.length s1 i code)

/-! ### `readlink` (source lines 747-757, 830-854) -/

/-- `canReadlink()`. -/
def canReadlinkF (s : Sys) (i : Nat) : Bool :=
  if (getN s i).linkTarget.isSome then true
  else if (getN s i).parent.isNone then false
  else
    let t := typOf s i
    let ifmt := t &&& IFMT
    !((ifmt ≠ UNKNOWN ∧ ifmt ≠ IFLNK) ∨ t &&& ENOREADLINK ≠ 0 ∨ t &&& ENOENT ≠ 0)

/-- `readlinkSync()`: return the cached target; refuse when
`canReadlink()` is false or the node is a root; on FS success resolve
the read string from the parent and cache it; on failure apply
`#readlinkFail`. -/
def readlinkSyncF (s : Sys) (i : Nat)
    (fsq : String → Except String String) : Option Nat × Sys :=
  match (getN s i).linkTarget with
  | some t => (some t, s)
  | none =>
    if !canReadlinkF s i then (none, s)
    else
      match (getN s i).parent with
      | none => (none, s)
      | some p =>
        let fq := fullpathM s s.nodes.length i
        let s1 := fq.2
        match fsq fq.1 with
        | .ok read =>
          let rq := nodeResolve s1 p read
          (some rq.1, setN rq.2 i fun n => { n with linkTarget := some rq.1 })
        | .error code => (none, readlinkFailF s1.nodes.length s1 i code)

/-! ### `realpath` (source lines 1291-1300) -/

/-- `realpathSync()`: return the cached value; refuse when ENOREALPATH,
ENOREADLINK or ENOENT is set; on FS success resolve the returned string
from the node itself and cache it; on failure `#markENOREALPATH`. -/
def realpathSyncF (s : Sys) (i : Nat)
    (fsq : String → Except Unit String) : Option Nat × Sys :=
  match (getN s i).realpathC with
  | some r => (some r, s)
  | none =>
    if (ENOREALPATH ||| ENOREADLINK ||| ENOENT) &&& typOf s i ≠ 0 then (none, s)
    else
      let fq := fullpathM s s.nodes.length i
      let s1 := fq.2
      match fsq fq.1 with
      | .ok rp =>
        let rq := nodeResolve s1 i rp
        (some rq.1, setN rq.2 i fun n => { n with realpathC := some rq.1 })
      | .error _ => (none, markENOREALPATHF s1.nodes.length s1 i)

/-! ### `readdirCB` and single-flight coalescing (source lines 1091-1162) -/

/-- A delivery of entries to a registered callback token.  `deferred`
records whether the source would wrap the call in `queueMicrotask`
(zalgo containment). -/
structure CbEvent where
  cb : Nat
  entries : List Nat
  deferred : Bool
deriving DecidableEq, Repr

/-- The synchronous part of `readdirCB(cb, allowZalgo)`: immediately
deliver `[]` when `canReaddir()` fails, deliver the cached real region
when READDIR_CALLED is set (deferred unless `allowZalgo`), otherwise
push the callback onto `#onReaddirCB` and — only when no call is in
flight — set `#readdirCBInFlight` and issue the FS readdir.  Returns the
deliveries performed now, whether an FS call was issued, and the new
state. -/
def readdirCBStart (s : Sys) (i : Nat) (cb : Nat) (allowZalgo : Bool) :
    List CbEvent × Bool × Sys :=
  if !canReaddirT (typOf s i) then ([⟨cb, [], !allowZalgo⟩], false, s)
  else
    let cs := childrenOf s i
    let s1 := cs.2
    if typOf s1 i &&& READDIR_CALLED != 0 then
      ([⟨cb, cs.1.ids.take cs.1.provisional, !allowZalgo⟩], false, s1)
    else
      let s2 := setN s1 i fun n => { n with cbq := n.cbq ++ [cb] }
      if (getN s2 i).inFlight then ([], false, s2)
      else
        let s3 := setN s2 i fun n => { n with inFlight := true }
        let fq := fullpathM s3 s3.nodes.length i
        ([], true, fq.2)

/-- Completion of the in-flight FS readdir issued by `readdirCB`: apply
the error mapping or ingest the entries, then `#callOnReaddirCB` —
clear the in-flight flag, drain the queue, and call every queued
callback with the same `children.slice(0, provisional)` list. -/
def readdirCBComplete (s : Sys) (i : Nat)
    (fsres : Except String (List Dirent)) : List CbEvent × Sys :=
  let s4 :=
    match fsres with
    | .error code =>
      let s3 := readdirFailF s.nodes.length s i code
      setProv s3 i 0
    | .ok entries =>
      let s3 := readdirAddChildren s i entries
      readdirSuccessF s3.nodes.length s3 i
  let c := (cmLookup s4.childMap i).getD ⟨[], 0⟩
  let slice := c.ids.take c.provisional
  let cbs := (getN s4 i).cbq
  let s5 := setN s4 i fun n => { n with inFlight := false, cbq := [] }
  (cbs.map fun cb => ⟨cb, slice, false⟩, s5)

/-! ### `shouldWalk` and `walkSync` (source lines 1256-1266, 2183-2221) -/

def isSymbolicLinkF (t : Nat) : Bool := t &&& IFLNK == IFLNK

def isUnknownF (t : Nat) : Bool := t &&& IFMT == UNKNOWN

/-- `shouldWalk(dirs, walkFilter)`. -/
def shouldWalkF (s : Sys) (i : Nat) (dirs : List Nat)
    (walkFilter : Option (Nat → Bool)) : Bool :=
  (typOf s i &&& IFDIR) == IFDIR &&
  (typOf s i &&& ENOCHILD) == 0 &&
  !(dirs.contains i) &&
  (match walkFilter with | none => true | some f => f i)

/-- The FS provider operations a synchronous walk consumes, keyed by
fullpath string. -/
structure FSim where
  rd : String → Except String (List Dirent)
  rp : String → Except Unit String
  ls : String → Except String DirentKind

/-- The per-entry body of `walkSync`'s inner loop: emit the entry when
the filter accepts it; for symlinks with `follow` take the realpath
(refining UNKNOWN targets with `lstatSync`) as the descent candidate,
skipping the entry when `follow` is off or realpath fails; add the
candidate to the visited set when `shouldWalk` allows descent. -/
def walkEntries (fsim : FSim) (follow : Bool)
    (filt walkFilter : Option (Nat → Bool)) :
    Sys → List Nat → List Nat → List Nat → List Nat × List Nat × Sys
  | s, dirs, results, [] => (results, dirs, s)
  | s, dirs, results, e :: rest =>
    let results1 :=
      match filt with
      | none => results ++ [e]
      | some f => if f e then results ++ [e] else results
    if isSymbolicLinkF (typOf s e) then
      if follow then
        match realpathSyncF s e fsim.rp with
        | (some r, s1) =>
          let s2 := if isUnknownF (typOf s1 r) then (lstatSyncF s1 r fsim.ls).2 else s1
          let dirs1 := if shouldWalkF s2 r dirs walkFilter then dirs ++ [r] else dirs
          walkEntries fsim follow filt walkFilter s2 dirs1 results1 rest
        | (none, s1) => walkEntries fsim follow filt walkFilter s1 dirs results1 rest
      else walkEntries fsim follow filt walkFilter s dirs results1 rest
    else
      let dirs1 := if shouldWalkF s e dirs walkFilter then dirs ++ [e] else dirs
      walkEntries fsim follow filt walkFilter s dirs1 results1 rest

/-- The `for (const dir of dirs)` loop of `walkSync`: `k` is the index of
the next visited-set element to process; JS `Set` iteration observes the
elements appended while iterating.  Also records, in order, the ids on
which an FS `readdir` was actually issued.  `fuel` bounds the number of
loop iterations. -/
def walkSyncGo (fsim : FSim) (follow : Bool)
    (filt walkFilter : Option (Nat → Bool)) :
    Nat → Sys → List Nat → Nat → List Nat → List Nat →
    List Nat × List Nat × Nat × List Nat × Sys
  | 0, s, dirs, k, results, fsCalls => (results, dirs, k, fsCalls, s)
  | fuel+1, s, dirs, k, results, fsCalls =>
    if k < dirs.length then
      let dir := dirs.getD k 0
      let rr := readdirSyncF s dir fsim.rd
      let fsCalls1 := if rr.fsCalled then fsCalls ++ [dir] else fsCalls
      let step := walkEntries fsim follow filt walkFilter rr.sys dirs results rr.entries
      walkSyncGo fsim follow filt walkFilter fuel step.2.2 step.2.1 (k + 1) step.1 fsCalls1
    else (results, dirs, k, fsCalls, s)

/-- `walkSync(entry, opts)`: emit the entry itself when the filter
accepts it, seed the visited set with the entry, and run the growing
loop. -/
def walkSyncF (fsim : FSim) (follow : Bool)
    (filt walkFilter : Option (Nat → Bool)) (fuel : Nat) (s : Sys)
    (entry : Nat) : List Nat × List Nat × Nat × List Nat × Sys :=
  let results0 :=
    match filt with
    | none => [entry]
    | some f => if f entry then [entry] else []
  walkSyncGo fsim follow filt walkFilter fuel s [entry] 0 results0 []

/-! ### PathScurry-level `resolve` (source lines 1669-1688) -/

def lookupStr : List (String × String) → String → Option String
  | [], _ => none
  | (k, v) :: rest, q => if k = q then some v else lookupStr rest q

/-- The right-to-left argument combination of `PathScurryBase.resolve`:
skip empty and `'.'` segments, prepend each segment with a `'/'` join,
and stop at the first absolute segment. -/
def combineGo : List String → String → String
  | [], r => r
  | p :: rest, r =>
    if p = "" ∨ p = "." then combineGo rest r
    else
      let r1 := if r = "" then p else p ++ "/" ++ r
      if startsWithSlash p then r1 else combineGo rest r1

def combineRtl (paths : List String) : String :=
  combineGo paths.reverse ""

/-- `PathScurryBase.resolve(...paths)`: combine the segments, consult the
string-resolve cache, and otherwise resolve from the cwd, take the
fullpath, and cache the result. -/
def scurryResolve (s : Sys) (paths : List String) : String × Sys :=
  let r := combineRtl paths
  match lookupStr s.resolveCache r with
  | some v => (v, s)
  | none =>
    let nq := nodeResolve s s.cwdId r
    let fq := fullpathM nq.2 nq.2.nodes.length nq.1
    (fq.1, { fq.2 with resolveCache := (r, fq.1) :: fq.2.resolveCache })

/-! ### Initial state -/

/-- A fresh POSIX scurry whose cwd is the root: one root node named
`'/'`, of type DIR, with no parent (`PathScurryPosix` with cwd `'/'`).
The `norm` parameter abstracts NFKD normalization. -/
def initPosix (norm : String → String) (nocase : Bool) : Sys :=
  { nodes := [{ name := "/",
                matchName := if nocase then norm (toLowerS "/") else norm "/",
                parent := none, typ := IFDIR, fullpathC := none,
                linkTarget := none, realpathC := none,
                cbq := [], inFlight := false }],
    childMap := [], cwdId := 0, nocase := nocase, norm := norm,
    resolveCache := [] }

/-- The identity normalization: on ASCII names NFKD is the identity, so
concrete scenarios over ASCII names instantiate `norm` with `id`. -/
def normId : String → String := id

/-- The children value currently stored for a parent (empty when none is
cached). -/
def childValOf (s : Sys) (i : Nat) : Children :=
  (cmLookup s.childMap i).getD ⟨[], 0⟩

/-! ### Concrete scenario states

A POSIX graph (case-sensitive, ASCII names, so `norm = id`) whose cwd is
the root, with a single provisional child `x` created by
`resolve('/x')`. -/

def codeENOENTs : String := "ENOENT"
def codeENOTDIRs : String := "ENOTDIR"
def codeEPERMs : String := "EPERM"
def codeEINVALs : String := "EINVAL"
def codeEIOs : String := "EIO"
def nameX : String := "x"
def pathX : String := "/x"

def run0 : Sys := initPosix normId false

/-- `resolve('/x')` from the root: returns the provisional node 1. -/
def runX : Nat × Sys := nodeResolve run0 0 pathX

/-- C1 scenario, step 2: `readdir('/')` observes `x` as a symlink, which
promotes node 1 with IFMT = LNK. -/
def c1s2 : Sys := (readdirSyncF runX.2 0 fun _ => .ok [⟨nameX, .symlink⟩]).sys

/-- C1 scenario, step 3: `readlink('/x')` fails with ENOENT. -/
def c1s3 : Sys := (readlinkSyncF c1s2 1 fun _ => .error codeENOENTs).2

/-- C2 scenario, step 2: `readdir('/x')` fails with ENOTDIR, so node 1 is
marked ENOTDIR. -/
def c2s2 : Sys := (readdirSyncF runX.2 1 fun _ => .error codeENOTDIRs).sys

/-- C2 scenario, step 3: `readdir('/')` then observes `x` as a directory
and promotes node 1, installing IFMT = DIR on top of ENOTDIR. -/
def c2s3 : Sys := (readdirSyncF c2s2 0 fun _ => .ok [⟨nameX, .dir⟩]).sys

/-- C2 scenario variant: `readdir('/')` observes `x` as a plain file; the
promotion installs IFMT = REG without setting ENOTDIR. -/
def c2sFile : Sys := (readdirSyncF runX.2 0 fun _ => .ok [⟨nameX, .file⟩]).sys

/-- C6 scenario: a first `readdirCB` on the root (callback token 100)
issues the FS call and sets the in-flight flag. -/
def c6s1 : Sys := (readdirCBStart runX.2 0 100 false).2.2

/-- C6 scenario: a second `readdirCB` (token 101) arrives while the
first is still in flight. -/
def c6s2 : Sys := (readdirCBStart c6s1 0 101 false).2.2

def nameLinkS : String := "link"

def slashS : String := "/"

/-- C7 scenario filesystem: the root directory contains one symlink
`link` whose realpath is the root itself — a symlink cycle. -/
def c7fsim : FSim :=
  ⟨fun _ => Except.ok [⟨nameLinkS, DirentKind.symlink⟩],
   fun _ => Except.ok slashS,
   fun _ => Except.error codeEIOs⟩

/-- C7 scenario: `walkSync` over the cycle with `follow = true`. -/
def c7run : List Nat × List Nat × Nat × List Nat × Sys :=
  walkSyncF c7fsim true none none 10 run0 0

def emptyS : String := ""

def dotS : String := "."

def dotdotS : String := ".."

def nameY : String := "y"

def pathY : String := "/y"

def dslashXS : String := "//x"

/-- C10 scenario: the graph of `resolve('/x')` with the root's fullpath
memoized, so `child()` pre-computes fullpaths for new children. -/
def c10s : Sys := (fullpathM runX.2 2 0).2

def pathFooS : String := "/foo"

def pathFOOS : String := "/FOO"

/-- C9 scenario: a fresh case-insensitive scurry (the default on win32
and darwin platforms). -/
def c9s0 : Sys := initPosix normId true

/-- C9 scenario: the inner call `resolve('/', '/foo')`. -/
def c9inner : String × Sys := scurryResolve c9s0 [slashS, pathFooS]

/-- C9 scenario: the direct call `resolve('/', '/foo', '/FOO')`. -/
def c9direct : String × Sys := scurryResolve c9s0 [slashS, pathFooS, pathFOOS]

/-- C9 scenario: the sequential composition
`resolve(resolve('/', '/foo'), '/FOO')`. -/
def c9seq : String × Sys := scurryResolve c9inner.2 [c9inner.1, pathFOOS]

/-- C9 scenario: the same calls on a case-sensitive scurry. -/
def c9s0cs : Sys := initPosix normId false

def c9innercs : String × Sys := scurryResolve c9s0cs [slashS, pathFooS]

/-! ## Basic lemmas about the state containers -/

theorem getD_listModify (f : α → α) (l : List α) (i j : Nat) (d : α) :
    (listModify f i l).getD j d =
      if j = i ∧ j < l.length then f (l.getD j d) else l.getD j d := by
  induction l generalizing i j with
  | nil => simp [listModify]
  | cons x xs ih =>
    cases i with
    | zero =>
      cases j with
      | zero => simp [listModify]
      | succ j => simp [listModify]
    | succ i =>
      cases j with
      | zero => simp [listModify]
      | succ j =>
        simp only [listModify, List.getD_cons_succ, ih, List.length_cons]
        by_cases hc : j = i ∧ j < xs.length
        · rw [if_pos hc, if_pos (by omega)]
        · rw [if_neg hc, if_neg (by omega)]

theorem length_listModify (f : α → α) (l : List α) (i : Nat) :
    (listModify f i l).length = l.length := by
  induction l generalizing i with
  | nil => simp [listModify]
  | cons x xs ih => cases i <;> simp [listModify, ih]

theorem cmLookup_cmSet_self (m : List (Nat × Children)) (p : Nat) (c : Children) :
    cmLookup (cmSet m p c) p = some c := by
  induction m with
  | nil => simp [cmSet, cmLookup]
  | cons e rest ih =>
    obtain ⟨q, d⟩ := e
    by_cases h : q = p <;> simp [cmSet, cmLookup, h, ih]

theorem cmLookup_cmSet_ne (m : List (Nat × Children)) (p q : Nat) (c : Children)
    (h : q ≠ p) : cmLookup (cmSet m p c) q = cmLookup m q := by
  induction m with
  | nil => simp [cmSet, cmLookup, Ne.symm h]
  | cons e rest ih =>
    obtain ⟨a, d⟩ := e
    by_cases ha : a = p
    · subst ha
      simp [cmSet, cmLookup, Ne.symm h]
    · simp only [cmSet, if_neg ha]
      by_cases hq : a = q <;> simp [cmLookup, hq, ih]

theorem cmLookup_cmErase_self (m : List (Nat × Children)) (p : Nat) :
    cmLookup (cmErase m p) p = none := by
  induction m with
  | nil => simp [cmErase, cmLookup]
  | cons e rest ih =>
    obtain ⟨q, d⟩ := e
    by_cases h : q = p <;> simp [cmErase, cmLookup, h, ih]

theorem getD_append_lt (l l' : List α) (j : Nat) (d : α) (h : j < l.length) :
    (l ++ l').getD j d = l.getD j d := by
  induction l generalizing j with
  | nil => simp at h
  | cons x xs ih =>
    cases j with
    | zero => simp
    | succ j =>
      simp only [List.cons_append, List.getD_cons_succ]
      exact ih j (by simpa using h)

theorem getD_append_ge (l l' : List α) (j : Nat) (d : α) (h : l.length ≤ j) :
    (l ++ l').getD j d = l'.getD (j - l.length) d := by
  induction l generalizing j with
  | nil => simp
  | cons x xs ih =>
    cases j with
    | zero => simp at h
    | succ j =>
      simp only [List.cons_append, List.getD_cons_succ, List.length_cons]
      rw [ih j (by simpa using h)]
      congr 1
      omega

/-! ## Bit-identity helpers

The type word always fits in the ten bits of `TYPEMASK`; identities over
an arbitrary word use associativity/distributivity of `&&&`/`|||`, and
identities restricted to `t ≤ TYPEMASK` are decided by enumeration. -/

theorem land_lor_right (a b c : Nat) : (a ||| b) &&& c = (a &&& c) ||| (b &&& c) := by
  apply Nat.eq_of_testBit_eq
  intro k
  simp [Nat.testBit_land, Nat.testBit_lor, Bool.and_or_distrib_right]

theorem land_zero_of (a b : Nat) (h : b = 0) : a &&& b = 0 := by
  subst h; simp

/-! ## Node accessor lemmas -/

theorem getN_setN (s : Sys) (i j : Nat) (f : PSNode → PSNode) :
    getN (setN s i f) j =
      if j = i ∧ j < s.nodes.length then f (getN s j) else getN s j := by
  simp only [getN, setN]
  exact getD_listModify f s.nodes i j default

theorem typOf_updTyp (s : Sys) (i j : Nat) (f : Nat → Nat) :
    typOf (updTyp s i f) j =
      if j = i ∧ j < s.nodes.length then f (typOf s j) else typOf s j := by
  simp only [typOf, updTyp]
  rw [getN_setN]
  by_cases h : j = i ∧ j < s.nodes.length
  · rw [if_pos h, if_pos h]
  · rw [if_neg h, if_neg h]

theorem typOf_setN (s : Sys) (i j : Nat) (f : PSNode → PSNode) :
    typOf (setN s i f) j =
      if j = i ∧ j < s.nodes.length then (f (getN s j)).typ else typOf s j := by
  simp only [typOf]
  rw [getN_setN]
  by_cases h : j = i ∧ j < s.nodes.length
  · rw [if_pos h, if_pos h]
  · rw [if_neg h, if_neg h]

theorem typOf_mkCM (s : Sys) (m : List (Nat × Children)) (j : Nat) :
    typOf { s with childMap := m } j = typOf s j := rfl

theorem getN_mkCM (s : Sys) (m : List (Nat × Children)) (j : Nat) :
    getN { s with childMap := m } j = getN s j := rfl

theorem length_mkCM (s : Sys) (m : List (Nat × Children)) :
    ({ s with childMap := m } : Sys).nodes.length = s.nodes.length := rfl

theorem length_setN (s : Sys) (i : Nat) (f : PSNode → PSNode) :
    (setN s i f).nodes.length = s.nodes.length := by
  simp [setN, length_listModify]

theorem length_updTyp (s : Sys) (i : Nat) (f : Nat → Nat) :
    (updTyp s i f).nodes.length = s.nodes.length := length_setN ..

theorem getN_childMap_set (s : Sys) (m : List (Nat × Children)) (j : Nat) :
    getN { s with childMap := m } j = getN s j := rfl

theorem typOf_childrenOf (s : Sys) (i j : Nat) :
    typOf (childrenOf s i).2 j =
      if (cmLookup s.childMap i).isNone ∧ j = i ∧ j < s.nodes.length then
        typOf s j &&& NOT_READDIR_CALLED
      else typOf s j := by
  unfold childrenOf
  cases h : cmLookup s.childMap i with
  | some c => simp [h]
  | none =>
    simp only [h, Option.isNone_none, true_and]
    rw [typOf_mkCM, typOf_updTyp]

theorem length_childrenOf (s : Sys) (i : Nat) :
    (childrenOf s i).2.nodes.length = s.nodes.length := by
  unfold childrenOf
  cases h : cmLookup s.childMap i with
  | some c => simp [h]
  | none => simp [h, length_updTyp]

theorem getN_childrenOf (s : Sys) (i j : Nat) :
    getN (childrenOf s i).2 j =
      if (cmLookup s.childMap i).isNone ∧ j = i ∧ j < s.nodes.length then
        { getN s j with typ := typOf s j &&& NOT_READDIR_CALLED }
      else getN s j := by
  unfold childrenOf
  cases h : cmLookup s.childMap i with
  | some c => simp [h]
  | none =>
    simp only [h, Option.isNone_none, true_and]
    rw [getN_mkCM, updTyp, getN_setN]
    by_cases hc : j = i ∧ j < s.nodes.length
    · rw [if_pos hc, if_pos hc]
      rfl
    · rw [if_neg hc, if_neg hc]

theorem length_setProv (s : Sys) (i p : Nat) :
    (setProv s i p).nodes.length = s.nodes.length := by
  unfold setProv
  cases h : cmLookup s.childMap i <;> simp [h]

theorem getN_setProv (s : Sys) (i p j : Nat) :
    getN (setProv s i p) j = getN s j := by
  unfold setProv
  cases h : cmLookup s.childMap i <;> simp [h, getN]

/-! ## Preservation through the ENOENT/ENOTDIR marking walk

`markENOENTs` touches a node record only through `updTyp` (with the two
mask shapes of `#markENOENT` and `children()`); everything except the
type word, and the node-store length, is untouched. -/

theorem markENOENTs_zero (s : Sys) (l : List Nat) : markENOENTs 0 s l = s := rfl

theorem markENOENTs_nil (fuel : Nat) (s : Sys) : markENOENTs fuel s [] = s := by
  cases fuel <;> rfl

theorem markENOENTs_cons (fuel : Nat) (s : Sys) (i : Nat) (rest : List Nat) :
    markENOENTs (fuel + 1) s (i :: rest) =
      markENOENTs (fuel + 1) (markOne fuel s i) rest := rfl

theorem markENOENTs_length : ∀ (fuel : Nat) (l : List Nat) (s : Sys),
    (markENOENTs fuel s l).nodes.length = s.nodes.length := by
  intro fuel
  induction fuel with
  | zero => intro l s; rfl
  | succ fuel ihf =>
    intro l
    induction l with
    | nil => intro s; rfl
    | cons i rest ihl =>
      intro s
      rw [markENOENTs_cons, ihl]
      unfold markOne
      by_cases hen : (typOf s i &&& ENOENT != 0) = true
      · rw [if_pos hen]
      · rw [if_neg hen]
        simp only
        rw [ihf, length_mkCM, length_childrenOf, length_updTyp]

/-- Any per-node fact about the type word that both mask shapes of the
marking walk preserve is preserved for every node. -/
theorem markENOENTs_presTyp (P : Nat → Prop)
    (h1 : ∀ t, P t → P (t &&& NOT_READDIR_CALLED))
    (h2 : ∀ t, P t → P ((t ||| ENOENT) &&& IFMT_UNKNOWN)) :
    ∀ (fuel : Nat) (l : List Nat) (s : Sys) (j : Nat),
      P (typOf s j) → P (typOf (markENOENTs fuel s l) j) := by
  intro fuel
  induction fuel with
  | zero => intro l s j hj; rwa [markENOENTs_zero]
  | succ fuel ihf =>
    intro l
    induction l with
    | nil => intro s j hj; rwa [markENOENTs_nil]
    | cons i rest ihl =>
      intro s j hj
      rw [markENOENTs_cons]
      apply ihl
      unfold markOne
      by_cases hen : (typOf s i &&& ENOENT != 0) = true
      · rw [if_pos hen]; exact hj
      · rw [if_neg hen]
        simp only
        apply ihf
        rw [typOf_mkCM, typOf_childrenOf]
        have hupd : P (typOf (updTyp s i fun t => (t ||| ENOENT) &&& IFMT_UNKNOWN) j) := by
          rw [typOf_updTyp]
          by_cases hd : j = i ∧ j < s.nodes.length
          · rw [if_pos hd]; exact h2 _ hj
          · rw [if_neg hd]; exact hj
        by_cases hcc : (cmLookup (updTyp s i fun t => (t ||| ENOENT) &&& IFMT_UNKNOWN).childMap i).isNone ∧
            j = i ∧ j < (updTyp s i fun t => (t ||| ENOENT) &&& IFMT_UNKNOWN).nodes.length
        · rw [if_pos hcc]; exact h1 _ hupd
        · rw [if_neg hcc]; exact hupd

/-- `P` at node `j` survives the `children()` call plus children-map
write that precedes the recursive marking of children. -/
theorem presTyp_cmstate (P : Nat → Prop)
    (h1 : ∀ t, P t → P (t &&& NOT_READDIR_CALLED))
    (X : Sys) (q j : Nat) (m : List (Nat × Children))
    (h : P (typOf X j)) :
    P (typOf ({ (childrenOf X q).2 with childMap := m } : Sys) j) := by
  rw [typOf_mkCM, typOf_childrenOf]
  split
  · exact h1 _ h
  · exact h

/-- The marking walk never changes anything but the type word of a node:
`g` is any view of a node record that ignores the type word. -/
theorem markENOENTs_presField (g : PSNode → α)
    (hg : ∀ n t, g { n with typ := t } = g n) :
    ∀ (fuel : Nat) (l : List Nat) (s : Sys) (j : Nat),
      g (getN (markENOENTs fuel s l) j) = g (getN s j) := by
  intro fuel
  induction fuel with
  | zero => intro l s j; rw [markENOENTs_zero]
  | succ fuel ihf =>
    intro l
    induction l with
    | nil => intro s j; rw [markENOENTs_nil]
    | cons i rest ihl =>
      intro s j
      rw [markENOENTs_cons, ihl]
      unfold markOne
      by_cases hen : (typOf s i &&& ENOENT != 0) = true
      · rw [if_pos hen]
      · rw [if_neg hen]
        simp only
        rw [ihf, getN_mkCM, getN_childrenOf]
        have hupd : g (getN (updTyp s i fun t => (t ||| ENOENT) &&& IFMT_UNKNOWN) j) = g (getN s j) := by
          rw [updTyp, getN_setN]
          by_cases hd : j = i ∧ j < s.nodes.length
          · rw [if_pos hd, hg]
          · rw [if_neg hd]
        by_cases hcc : (cmLookup (updTyp s i fun t => (t ||| ENOENT) &&& IFMT_UNKNOWN).childMap i).isNone ∧
            j = i ∧ j < (updTyp s i fun t => (t ||| ENOENT) &&& IFMT_UNKNOWN).nodes.length
        · rw [if_pos hcc, hg]; exact hupd
        · rw [if_neg hcc]; exact hupd

/-! ## Bit facts about the marking shapes -/

theorem lor_enoent_ne_zero (x : Nat) : x ||| ENOENT ≠ 0 := by
  intro h
  have h7 := congrArg (fun z => Nat.testBit z 7) h
  simp only [Nat.testBit_lor] at h7
  rw [show Nat.testBit ENOENT 7 = true from by decide] at h7
  simp at h7

theorem lor_enotdir_ne_zero (x : Nat) : x ||| ENOTDIR ≠ 0 := by
  intro h
  have h6 := congrArg (fun z => Nat.testBit z 6) h
  simp only [Nat.testBit_lor] at h6
  rw [show Nat.testBit ENOTDIR 6 = true from by decide] at h6
  simp at h6

theorem enoent_after_mark (t : Nat) :
    ((t ||| ENOENT) &&& IFMT_UNKNOWN) &&& ENOENT ≠ 0 := by
  rw [Nat.land_assoc, show IFMT_UNKNOWN &&& ENOENT = ENOENT from by decide,
    land_lor_right, show ENOENT &&& ENOENT = ENOENT from by decide]
  exact lor_enoent_ne_zero _

theorem ifmt_after_mark (t : Nat) :
    ((t ||| ENOENT) &&& IFMT_UNKNOWN) &&& IFMT = 0 := by
  rw [Nat.land_assoc]
  exact land_zero_of _ _ (by decide)

theorem enoent_after_nrc (t : Nat) (h : t &&& ENOENT ≠ 0) :
    (t &&& NOT_READDIR_CALLED) &&& ENOENT ≠ 0 := by
  rwa [Nat.land_assoc, show NOT_READDIR_CALLED &&& ENOENT = ENOENT from by decide]

theorem ifmt_after_nrc (t : Nat) (h : t &&& IFMT = 0) :
    (t &&& NOT_READDIR_CALLED) &&& IFMT = 0 := by
  rwa [Nat.land_assoc, show NOT_READDIR_CALLED &&& IFMT = IFMT from by decide]

theorem ifmt_nrc (t : Nat) :
    (t &&& NOT_READDIR_CALLED) &&& IFMT = t &&& IFMT := by
  rw [Nat.land_assoc, show NOT_READDIR_CALLED &&& IFMT = IFMT from by decide]

theorem enotdir_after_nrc (t : Nat) (h : t &&& ENOTDIR ≠ 0) :
    (t &&& NOT_READDIR_CALLED) &&& ENOTDIR ≠ 0 := by
  rwa [Nat.land_assoc, show NOT_READDIR_CALLED &&& ENOTDIR = ENOTDIR from by decide]

theorem enotdir_after_mark (t : Nat) (h : t &&& ENOTDIR ≠ 0) :
    ((t ||| ENOENT) &&& IFMT_UNKNOWN) &&& ENOTDIR ≠ 0 := by
  rw [Nat.land_assoc, show IFMT_UNKNOWN &&& ENOTDIR = ENOTDIR from by decide,
    land_lor_right, show ENOENT &&& ENOTDIR = 0 from by decide]
  simpa using h

theorem ent_land_enotdir (k : DirentKind) : entToType k &&& ENOTDIR = 0 := by
  cases k <;> decide

theorem ent_land_ifmt (k : DirentKind) : entToType k &&& IFMT = entToType k := by
  cases k <;> decide

/-- The IFMT bits after a promotion or `#applyStat` install: the masked
word contributes nothing to the low nibble. -/
theorem ifmt_after_install (t e : Nat) (he : e &&& IFMT = e) :
    ((t &&& IFMT_UNKNOWN) ||| e) &&& IFMT = e := by
  rw [land_lor_right, Nat.land_assoc]
  rw [land_zero_of _ _ (by decide : IFMT_UNKNOWN &&& IFMT = 0), he]
  simp

/-- The bits outside IFMT after a promotion install: unchanged. -/
theorem nonifmt_after_install (t e : Nat) (he : e &&& IFMT = e) :
    ((t &&& IFMT_UNKNOWN) ||| e) &&& IFMT_UNKNOWN = t &&& IFMT_UNKNOWN := by
  rw [land_lor_right, Nat.land_assoc,
    show IFMT_UNKNOWN &&& IFMT_UNKNOWN = IFMT_UNKNOWN from by decide]
  have : e &&& IFMT_UNKNOWN = 0 := by
    rw [← he, Nat.land_assoc]
    exact land_zero_of _ _ (by decide)
  rw [this]
  simp

/-- `#markENOENT` on one node always leaves the node with ENOENT set,
and — when ENOENT was not already set — with IFMT cleared to UNKNOWN. -/
theorem markENOENT1_spec (fuel : Nat) (s : Sys) (i : Nat)
    (hi : i < s.nodes.length) (hf : 0 < fuel) :
    typOf (markENOENT1 fuel s i) i &&& ENOENT ≠ 0 ∧
      (typOf s i &&& ENOENT = 0 → typOf (markENOENT1 fuel s i) i &&& IFMT = UNKNOWN) := by
  obtain ⟨f, rfl⟩ : ∃ f, fuel = f + 1 := ⟨fuel - 1, by omega⟩
  unfold markENOENT1
  rw [markENOENTs_cons, markENOENTs_nil]
  unfold markOne
  by_cases hen : (typOf s i &&& ENOENT != 0) = true
  · rw [if_pos hen]
    exact ⟨by simpa using hen, fun h0 => absurd h0 (by simpa using hen)⟩
  · rw [if_neg hen]
    simp only
    have main := markENOENTs_presTyp (fun t => t &&& ENOENT ≠ 0 ∧ t &&& IFMT = 0)
      (fun t h => ⟨enoent_after_nrc t h.1, ifmt_after_nrc t h.2⟩)
      (fun t _ => ⟨enoent_after_mark t, ifmt_after_mark t⟩) f
    have base : typOf (updTyp s i fun t => (t ||| ENOENT) &&& IFMT_UNKNOWN) i &&& ENOENT ≠ 0 ∧
        typOf (updTyp s i fun t => (t ||| ENOENT) &&& IFMT_UNKNOWN) i &&& IFMT = 0 := by
      rw [typOf_updTyp, if_pos ⟨rfl, hi⟩]
      exact ⟨enoent_after_mark _, ifmt_after_mark _⟩
    exact ⟨(main _ _ i (presTyp_cmstate (fun t => t &&& ENOENT ≠ 0 ∧ t &&& IFMT = 0)
        (fun t h => ⟨enoent_after_nrc t h.1, ifmt_after_nrc t h.2⟩) _ i i _ base)).1,
      fun _ => (main _ _ i (presTyp_cmstate (fun t => t &&& ENOENT ≠ 0 ∧ t &&& IFMT = 0)
        (fun t h => ⟨enoent_after_nrc t h.1, ifmt_after_nrc t h.2⟩) _ i i _ base)).2⟩

/-! ## Claim C1 -/

/-- C1 counterexample: the claim says every operation that sets the
ENOENT bit also clears the IFMT bits.  In the concrete run where
`resolve('/x')` creates a provisional node, `readdir('/')` promotes it to
a symlink, and `readlink('/x')` then fails with ENOENT, the node ends
with ENOENT set while its IFMT bits still say LNK: `#readlinkFail` adds
ENOENT without touching IFMT (it clears IFMT only for EINVAL/UNKNOWN). -/
theorem claim1_counterexample :
    typOf c1s3 1 &&& ENOENT ≠ 0 ∧ typOf c1s3 1 &&& IFMT = IFLNK := by decide

/-- C1 amended: setting ENOENT through `#markENOENT` (the path taken by
readdir and lstat failures and provisional-child cleanup) does clear IFMT
to UNKNOWN, but `#readlinkFail` with code ENOENT sets the ENOENT bit
while leaving IFMT unchanged; readlink failure clears IFMT only for code
EINVAL (or UNKNOWN). -/
theorem claim1_amended :
    (∀ (fuel : Nat) (s : Sys) (i : Nat), i < s.nodes.length → 0 < fuel →
      typOf (markENOENT1 fuel s i) i &&& ENOENT ≠ 0 ∧
        (typOf s i &&& ENOENT = 0 →
          typOf (markENOENT1 fuel s i) i &&& IFMT = UNKNOWN)) ∧
    (∀ t : Nat,
      readlinkFailT codeENOENTs t &&& ENOENT ≠ 0 ∧
        readlinkFailT codeENOENTs t &&& IFMT = t &&& IFMT) ∧
    (∀ t : Nat, readlinkFailT codeEINVALs t &&& IFMT = UNKNOWN) := by
  refine ⟨fun fuel s i hi hf => markENOENT1_spec fuel s i hi hf, fun t => ?_, fun t => ?_⟩
  · have hred : readlinkFailT codeENOENTs t = (t ||| ENOREADLINK) ||| ENOENT := by
      simp [readlinkFailT, codeENOENTs]
    constructor
    · rw [hred, land_lor_right, show ENOENT &&& ENOENT = ENOENT from by decide]
      exact lor_enoent_ne_zero _
    · rw [hred, land_lor_right, land_lor_right,
        show ENOREADLINK &&& IFMT = 0 from by decide,
        show ENOENT &&& IFMT = 0 from by decide]
      simp
  · have hred : readlinkFailT codeEINVALs t = (t ||| ENOREADLINK) &&& IFMT_UNKNOWN := by
      simp [readlinkFailT, codeEINVALs]
    rw [hred, Nat.land_assoc]
    exact land_zero_of _ _ (by decide)

/-- C1 amended, witness: the amended facts evaluated in the concrete
scenario (marking provisional node 1, and failing a readlink with ENOENT
on a LNK-typed word). -/
theorem claim1_amended_witness :
    typOf (markENOENT1 2 runX.2 1) 1 &&& ENOENT ≠ 0 ∧
    typOf (markENOENT1 2 runX.2 1) 1 &&& IFMT = UNKNOWN ∧
    readlinkFailT codeENOENTs IFLNK &&& IFMT = IFLNK &&& IFMT :=
  ⟨(claim1_amended.1 2 runX.2 1 (by decide) (by decide)).1,
   (claim1_amended.1 2 runX.2 1 (by decide) (by decide)).2 (by decide),
   (claim1_amended.2.1 IFLNK).2⟩

/-- `#markENOTDIR` on one node: starting from a node that does not
violate the DIR/ENOTDIR exclusion, the result has ENOTDIR set and an
IFMT other than DIR (when IFMT was DIR it is cleared first). -/
theorem markENOTDIRF_spec (fuel : Nat) (s : Sys) (i : Nat)
    (hi : i < s.nodes.length)
    (hpre : typOf s i &&& IFMT = IFDIR → typOf s i &&& ENOTDIR = 0) :
    typOf (markENOTDIRF fuel s i) i &&& ENOTDIR ≠ 0 ∧
      typOf (markENOTDIRF fuel s i) i &&& IFMT ≠ IFDIR := by
  unfold markENOTDIRF
  by_cases hen : (typOf s i &&& ENOTDIR != 0) = true
  · rw [if_pos hen]
    have h64 : typOf s i &&& ENOTDIR ≠ 0 := by simpa using hen
    exact ⟨h64, fun hdir => h64 (hpre hdir)⟩
  · rw [if_neg hen]
    simp only
    have main := markENOENTs_presTyp (fun t => t &&& ENOTDIR ≠ 0 ∧ t &&& IFMT ≠ IFDIR)
      (fun t h => ⟨enotdir_after_nrc t h.1, by rw [ifmt_nrc]; exact h.2⟩)
      (fun t h => ⟨enotdir_after_mark t h.1, by rw [ifmt_after_mark]; decide⟩) fuel
    have base : typOf (updTyp s i fun _ =>
        (if typOf s i &&& IFMT = IFDIR then typOf s i &&& IFMT_UNKNOWN else typOf s i) ||| ENOTDIR) i &&& ENOTDIR ≠ 0 ∧
        typOf (updTyp s i fun _ =>
        (if typOf s i &&& IFMT = IFDIR then typOf s i &&& IFMT_UNKNOWN else typOf s i) ||| ENOTDIR) i &&& IFMT ≠ IFDIR := by
      rw [typOf_updTyp, if_pos ⟨rfl, hi⟩]
      constructor
      · rw [land_lor_right, show ENOTDIR &&& ENOTDIR = ENOTDIR from by decide]
        exact lor_enotdir_ne_zero _
      · by_cases hdir : typOf s i &&& IFMT = IFDIR
        · rw [if_pos hdir, land_lor_right, Nat.land_assoc,
            land_zero_of _ _ (by decide : IFMT_UNKNOWN &&& IFMT = 0),
            show ENOTDIR &&& IFMT = 0 from by decide]
          decide
        · rw [if_neg hdir, land_lor_right, show ENOTDIR &&& IFMT = 0 from by decide]
          simpa using hdir
    exact ⟨(main _ _ i (presTyp_cmstate (fun t => t &&& ENOTDIR ≠ 0 ∧ t &&& IFMT ≠ IFDIR)
        (fun t h => ⟨enotdir_after_nrc t h.1, by rw [ifmt_nrc]; exact h.2⟩) _ i i _ base)).1,
      (main _ _ i (presTyp_cmstate (fun t => t &&& ENOTDIR ≠ 0 ∧ t &&& IFMT ≠ IFDIR)
        (fun t h => ⟨enotdir_after_nrc t h.1, by rw [ifmt_nrc]; exact h.2⟩) _ i i _ base)).2⟩

/-! ## Claim C2 -/

/-- C2 counterexample: the claim says no node ever has IFMT = DIR with
ENOTDIR set, and that every operation installing a non-DIR/LNK/UNKNOWN
IFMT also sets ENOTDIR.  Both parts fail through
`#readdirPromoteChild`, which installs the dirent's IFMT while leaving
every other bit alone: after `readdir('/x')` fails with ENOTDIR (marking
node 1 ENOTDIR) and `readdir('/')` then reports `x` as a directory, the
promoted node has IFMT = DIR and ENOTDIR simultaneously; and promoting a
plain file yields IFMT = REG with ENOTDIR clear. -/
theorem claim2_counterexample :
    (typOf c2s3 1 &&& IFMT = IFDIR ∧ typOf c2s3 1 &&& ENOTDIR ≠ 0) ∧
    (typOf c2sFile 1 &&& IFMT = IFREG ∧ typOf c2sFile 1 &&& ENOTDIR = 0) := by
  decide

/-- C2 amended: the two cited transitions do maintain the exclusion —
`#markENOTDIR` clears a DIR IFMT before setting ENOTDIR, and
`#applyStat` sets ENOTDIR whenever the installed IFMT is neither
UNKNOWN, DIR nor LNK — but the invariant is not system-wide, because
`#readdirPromoteChild` installs the observed IFMT while leaving the
ENOTDIR bit exactly as it was. -/
theorem claim2_amended :
    (∀ (fuel : Nat) (s : Sys) (i : Nat), i < s.nodes.length →
      (typOf s i &&& IFMT = IFDIR → typOf s i &&& ENOTDIR = 0) →
      typOf (markENOTDIRF fuel s i) i &&& ENOTDIR ≠ 0 ∧
        typOf (markENOTDIRF fuel s i) i &&& IFMT ≠ IFDIR) ∧
    (∀ (t : Nat) (k : DirentKind),
      applyStatT k t &&& IFMT = entToType k ∧
        (entToType k ≠ UNKNOWN ∧ entToType k ≠ IFDIR ∧ entToType k ≠ IFLNK →
          applyStatT k t &&& ENOTDIR ≠ 0)) ∧
    (∀ (s : Sys) (i : Nat) (e : Dirent) (j index : Nat) (c : Children),
      typOf (readdirPromoteChild s i e j index c) j &&& ENOTDIR =
        typOf s j &&& ENOTDIR) := by
  refine ⟨fun fuel s i hi hpre => markENOTDIRF_spec fuel s i hi hpre,
    fun t k => ?_, fun s i e j index c => ?_⟩
  · unfold applyStatT
    simp only
    constructor
    · by_cases hc : entToType k ≠ UNKNOWN ∧ entToType k ≠ IFDIR ∧ entToType k ≠ IFLNK
      · rw [if_pos hc, land_lor_right, show ENOTDIR &&& IFMT = 0 from by decide,
          land_lor_right, land_lor_right, Nat.land_assoc,
          land_zero_of _ _ (by decide : IFMT_UNKNOWN &&& IFMT = 0),
          ent_land_ifmt, show LSTAT_CALLED &&& IFMT = 0 from by decide]
        simp
      · rw [if_neg hc, land_lor_right, land_lor_right, Nat.land_assoc,
          land_zero_of _ _ (by decide : IFMT_UNKNOWN &&& IFMT = 0),
          ent_land_ifmt, show LSTAT_CALLED &&& IFMT = 0 from by decide]
        simp
    · intro hc
      rw [if_pos hc, land_lor_right, show ENOTDIR &&& ENOTDIR = ENOTDIR from by decide]
      exact lor_enotdir_ne_zero _
  · unfold readdirPromoteChild
    simp only
    rw [typOf_mkCM, typOf_setN]
    by_cases hd : j = j ∧ j < s.nodes.length
    · rw [if_pos hd]
      show ((typOf s j &&& IFMT_UNKNOWN) ||| entToType e.kind) &&& ENOTDIR = typOf s j &&& ENOTDIR
      rw [land_lor_right, Nat.land_assoc,
        show IFMT_UNKNOWN &&& ENOTDIR = ENOTDIR from by decide, ent_land_enotdir]
      simp
    · rw [if_neg hd]

/-- C2 amended, witness: the amended facts at concrete inputs — marking
the provisional node 1 ENOTDIR, a socket lstat on a clean word, and the
promote step of the file scenario. -/
theorem claim2_amended_witness :
    (typOf (markENOTDIRF 2 runX.2 1) 1 &&& ENOTDIR ≠ 0 ∧
      typOf (markENOTDIRF 2 runX.2 1) 1 &&& IFMT ≠ IFDIR) ∧
    applyStatT DirentKind.socket 0 &&& ENOTDIR ≠ 0 ∧
    typOf (readdirPromoteChild runX.2 0 ⟨nameX, DirentKind.file⟩ 1 0
        (childValOf runX.2 0)) 1 &&& ENOTDIR = typOf runX.2 1 &&& ENOTDIR :=
  ⟨claim2_amended.1 2 runX.2 1 (by decide) (by decide),
   (claim2_amended.2.1 0 DirentKind.socket).2 (by decide),
   claim2_amended.2.2 runX.2 0 ⟨nameX, DirentKind.file⟩ 1 0 (childValOf runX.2 0)⟩

/-! ## Claim C4 -/

theorem getD_mem_take (l : List Nat) (n : Nat) (d : Nat) (h : n < l.length) :
    l.getD n d ∈ l.take (n + 1) := by
  induction l generalizing n with
  | nil => simp at h
  | cons x xs ih =>
    cases n with
    | zero => simp
    | succ n =>
      simp only [List.getD_cons_succ, List.take_succ_cons, List.mem_cons]
      exact Or.inr (ih n (by simpa using h))

/-- C4: a promotion updates only the IFMT bits of the child's type word
(taking them from the dirent), leaves every other state bit unchanged,
overwrites the stored name with the observed spelling while keeping the
match key, keeps the node store otherwise untouched (same object
identity, no new nodes), and moves the child into the real region
`ids.take provisional` of the updated children value. -/
theorem claim4_promote (s : Sys) (i : Nat) (e : Dirent) (j index : Nat)
    (c : Children)
    (hj : j < s.nodes.length)
    (hidx : index < c.ids.length)
    (hat : c.ids.getD index 0 = j) :
    typOf (readdirPromoteChild s i e j index c) j &&& IFMT = entToType e.kind ∧
    typOf (readdirPromoteChild s i e j index c) j &&& IFMT_UNKNOWN =
      typOf s j &&& IFMT_UNKNOWN ∧
    (getN (readdirPromoteChild s i e j index c) j).name = e.name ∧
    (getN (readdirPromoteChild s i e j index c) j).matchName =
      (getN s j).matchName ∧
    (readdirPromoteChild s i e j index c).nodes.length = s.nodes.length ∧
    (∀ k, k ≠ j → getN (readdirPromoteChild s i e j index c) k = getN s k) ∧
    (childValOf (readdirPromoteChild s i e j index c) i).provisional =
      c.provisional + 1 ∧
    j ∈ (childValOf (readdirPromoteChild s i e j index c) i).ids.take
      ((childValOf (readdirPromoteChild s i e j index c) i).provisional) := by
  have hcv : childValOf (readdirPromoteChild s i e j index c) i =
      ⟨if index ≠ c.provisional then j :: eraseIdx c.ids index else c.ids,
        c.provisional + 1⟩ := by
    unfold readdirPromoteChild childValOf
    simp only [cmLookup_cmSet_self, Option.getD_some]
  refine ⟨?_, ?_, ?_, ?_, ?_, ?_, ?_, ?_⟩
  · unfold readdirPromoteChild
    simp only
    rw [typOf_mkCM, typOf_setN, if_pos ⟨rfl, hj⟩]
    exact ifmt_after_install _ _ (ent_land_ifmt e.kind)
  · unfold readdirPromoteChild
    simp only
    rw [typOf_mkCM, typOf_setN, if_pos ⟨rfl, hj⟩]
    exact nonifmt_after_install _ _ (ent_land_ifmt e.kind)
  · unfold readdirPromoteChild
    simp only
    rw [getN_mkCM, getN_setN, if_pos ⟨rfl, hj⟩]
    show (if (getN s j).name = e.name then (getN s j).name else e.name) = e.name
    by_cases hv : (getN s j).name = e.name
    · rw [if_pos hv]; exact hv
    · rw [if_neg hv]
  · unfold readdirPromoteChild
    simp only
    rw [getN_mkCM, getN_setN, if_pos ⟨rfl, hj⟩]
  · unfold readdirPromoteChild
    simp only
    rw [length_mkCM, length_setN]
  · intro k hk
    unfold readdirPromoteChild
    simp only
    rw [getN_mkCM, getN_setN, if_neg (fun hc => hk hc.1)]
  · rw [hcv]
  · rw [hcv]
    simp only
    by_cases hip : index ≠ c.provisional
    · rw [if_pos hip]
      simp [List.take_succ_cons]
    · rw [if_neg hip]
      have : c.ids.getD c.provisional 0 = j := by
        rw [← hat]
        congr 1
        omega
      rw [← this]
      apply getD_mem_take
      omega

/-- C4 witness: promoting the provisional node 1 (created by
`resolve('/x')`) when `readdir('/')` reports `x` as a directory. -/
theorem claim4_promote_witness :
    typOf (readdirPromoteChild runX.2 0 ⟨nameX, DirentKind.dir⟩ 1 0
        (childValOf runX.2 0)) 1 &&& IFMT = entToType DirentKind.dir ∧
    1 ∈ (childValOf (readdirPromoteChild runX.2 0 ⟨nameX, DirentKind.dir⟩ 1 0
        (childValOf runX.2 0)) 0).ids.take
      ((childValOf (readdirPromoteChild runX.2 0 ⟨nameX, DirentKind.dir⟩ 1 0
        (childValOf runX.2 0)) 0).provisional) :=
  ⟨(claim4_promote runX.2 0 ⟨nameX, DirentKind.dir⟩ 1 0 (childValOf runX.2 0)
      (by decide) (by decide) (by decide)).1,
   (claim4_promote runX.2 0 ⟨nameX, DirentKind.dir⟩ 1 0 (childValOf runX.2 0)
      (by decide) (by decide) (by decide)).2.2.2.2.2.2.2⟩

/-! ## Claim C3 support lemmas -/

theorem nrc_rc_zero (t : Nat) : (t &&& NOT_READDIR_CALLED) &&& READDIR_CALLED = 0 := by
  rw [Nat.land_assoc]
  exact land_zero_of _ _ (by decide)

/-- For a ten-bit type word without READDIR_CALLED, the `children()`
rebuild mask is the identity. -/
theorem and_nrc_id : ∀ t < 1024, t &&& READDIR_CALLED = 0 →
    t &&& NOT_READDIR_CALLED = t := by decide

theorem childrenOf_fst (s : Sys) (i : Nat) :
    (childrenOf s i).1 = childValOf s i := by
  unfold childrenOf childValOf
  cases h : cmLookup s.childMap i <;> simp [h]

theorem cmLookup_childrenOf_self (s : Sys) (i : Nat) :
    cmLookup (childrenOf s i).2.childMap i = some (childValOf s i) := by
  unfold childrenOf childValOf
  cases h : cmLookup s.childMap i with
  | some c => simp [h]
  | none => simp [h, cmLookup_cmSet_self]

theorem childValOf_updTyp (s : Sys) (i q : Nat) (f : Nat → Nat) :
    childValOf (updTyp s i f) q = childValOf s q := rfl

theorem typOf_setN_keep (s : Sys) (i j : Nat) (f : PSNode → PSNode)
    (hf : ∀ n, (f n).typ = n.typ) : typOf (setN s i f) j = typOf s j := by
  rw [typOf_setN]
  split
  · rw [hf]; rfl
  · rfl

theorem fullpathM_childMap (s : Sys) : ∀ (fuel i : Nat),
    (fullpathM s fuel i).2.childMap = s.childMap := by
  intro fuel
  induction fuel with
  | zero => intro i; rfl
  | succ fuel ih =>
    intro i
    unfold fullpathM
    cases hc : (getN s i).fullpathC with
    | some v => simp
    | none =>
      simp only [hc]
      cases hp : (getN s i).parent with
      | none => rfl
      | some p =>
        simp only [hp]
        exact ih p

theorem fullpathM_length (s : Sys) : ∀ (fuel i : Nat),
    (fullpathM s fuel i).2.nodes.length = s.nodes.length := by
  intro fuel
  induction fuel with
  | zero => intro i; rfl
  | succ fuel ih =>
    intro i
    unfold fullpathM
    cases hc : (getN s i).fullpathC with
    | some v => simp
    | none =>
      simp only [hc]
      cases hp : (getN s i).parent with
      | none => simp [length_setN]
      | some p =>
        simp only [hp]
        show (setN (fullpathM s fuel p).2 i _).nodes.length = _
        rw [length_setN, ih p]

theorem fullpathM_typOf (s : Sys) : ∀ (fuel i j : Nat),
    typOf (fullpathM s fuel i).2 j = typOf s j := by
  intro fuel
  induction fuel with
  | zero => intro i j; rfl
  | succ fuel ih =>
    intro i j
    unfold fullpathM
    cases hc : (getN s i).fullpathC with
    | some v => simp
    | none =>
      simp only [hc]
      cases hp : (getN s i).parent with
      | none =>
        simp only
        rw [typOf_setN_keep]
        intro n; rfl
      | some p =>
        simp only [hp]
        rw [typOf_setN]
        split
        · show typOf (fullpathM s fuel p).2 j = _
          exact ih p j
        · exact ih p j

theorem setProv_zero_prov (s : Sys) (i : Nat) :
    (childValOf (setProv s i 0) i).provisional = 0 := by
  unfold setProv childValOf
  cases h : cmLookup s.childMap i with
  | some c => simp [cmLookup_cmSet_self]
  | none => simp [h]

theorem typOf_setProv (s : Sys) (i p j : Nat) :
    typOf (setProv s i p) j = typOf s j := by
  simp [typOf, getN_setProv]

theorem markOne_length (fuel : Nat) (s : Sys) (i : Nat) :
    (markOne fuel s i).nodes.length = s.nodes.length := by
  unfold markOne
  by_cases hen : (typOf s i &&& ENOENT != 0) = true
  · rw [if_pos hen]
  · rw [if_neg hen]
    simp only
    rw [markENOENTs_length, length_mkCM, length_childrenOf, length_updTyp]

theorem markOne_sets (fuel : Nat) (s : Sys) (i : Nat) (hi : i < s.nodes.length) :
    typOf (markOne fuel s i) i &&& ENOENT ≠ 0 := by
  unfold markOne
  by_cases hen : (typOf s i &&& ENOENT != 0) = true
  · rw [if_pos hen]
    simpa using hen
  · rw [if_neg hen]
    simp only
    have base : typOf (updTyp s i fun t => (t ||| ENOENT) &&& IFMT_UNKNOWN) i &&& ENOENT ≠ 0 := by
      rw [typOf_updTyp, if_pos ⟨rfl, hi⟩]
      exact enoent_after_mark _
    exact markENOENTs_presTyp (fun t => t &&& ENOENT ≠ 0)
      (fun t h => enoent_after_nrc t h) (fun t _ => enoent_after_mark t) fuel _ _ i
      (presTyp_cmstate (fun t => t &&& ENOENT ≠ 0)
        (fun t h => enoent_after_nrc t h) _ i i _ base)

/-- Every listed node ends with ENOENT set after the marking walk. -/
theorem markENOENTs_sets (fuel : Nat) :
    ∀ (l : List Nat) (s : Sys), (∀ j ∈ l, j < s.nodes.length) →
      ∀ j ∈ l, typOf (markENOENTs (fuel + 1) s l) j &&& ENOENT ≠ 0 := by
  intro l
  induction l with
  | nil => intro s _ j hj; simp at hj
  | cons i rest ih =>
    intro s hlen j hj
    rw [markENOENTs_cons]
    rcases List.mem_cons.mp hj with hj | hj
    · subst hj
      exact markENOENTs_presTyp (fun t => t &&& ENOENT ≠ 0)
        (fun t h => enoent_after_nrc t h) (fun t _ => enoent_after_mark t)
        (fuel + 1) rest _ j (markOne_sets fuel s j (hlen j (by simp)))
    · exact ih (markOne fuel s i)
        (fun k hk => by rw [markOne_length]; exact hlen k (List.mem_cons_of_mem _ hk))
        j hj

/-- `#markENOTDIR` marks every current child ENOENT. -/
theorem markENOTDIRF_kids (fuel : Nat) (s : Sys) (i : Nat)
    (hfuel : 0 < fuel) (hen : typOf s i &&& ENOTDIR = 0)
    (hkids : ∀ j ∈ (childValOf s i).ids, j < s.nodes.length) :
    ∀ j ∈ (childValOf s i).ids,
      typOf (markENOTDIRF fuel s i) j &&& ENOENT ≠ 0 := by
  intro j hj
  obtain ⟨f, rfl⟩ : ∃ f, fuel = f + 1 := ⟨fuel - 1, by omega⟩
  unfold markENOTDIRF
  rw [if_neg (by simp [hen])]
  simp only
  have hfst : (childrenOf (updTyp s i fun _ =>
      (if typOf s i &&& IFMT = IFDIR then typOf s i &&& IFMT_UNKNOWN else typOf s i) ||| ENOTDIR) i).1 =
      childValOf s i := by
    rw [childrenOf_fst]; rfl
  rw [hfst]
  apply markENOENTs_sets f (childValOf s i).ids _ _ j hj
  intro k hk
  rw [length_mkCM, length_childrenOf, length_updTyp]
  exact hkids k hk

theorem and_sub (t a b : Nat) (hab : a &&& b = b) (h : t &&& a = 0) :
    t &&& b = 0 := by
  have hh : (t &&& a) &&& b = t &&& b := by rw [Nat.land_assoc, hab]
  rw [← hh, h]
  simp

theorem canReaddirT_enochild (t : Nat) (h : canReaddirT t = true) :
    t &&& ENOCHILD = 0 := by
  unfold canReaddirT at h
  by_cases hc : (t &&& ENOCHILD != 0) = true
  · rw [if_pos hc] at h
    exact absurd h (by decide)
  · simpa using hc

theorem childrenOf_hit (s : Sys) (i : Nat) (c : Children)
    (h : cmLookup s.childMap i = some c) : childrenOf s i = (c, s) := by
  unfold childrenOf
  rw [h]

/-- The readdir-failure reduction: when `canReaddir()` holds and
READDIR_CALLED is clear, `readdirSync` with a failing FS provider
returns `[]`, issues exactly one FS call, and finishes with
`#readdirFail` plus the `provisional = 0` reset. -/
theorem c3red (s : Sys) (i : Nat) (code : String)
    (hcr : canReaddirT (typOf s i) = true)
    (hrc : typOf s i &&& READDIR_CALLED = 0) :
    readdirSyncF s i (fun _ => Except.error code) =
      ⟨[], true,
        setProv (readdirFailF
          (fullpathM (childrenOf s i).2 (childrenOf s i).2.nodes.length i).2.nodes.length
          (fullpathM (childrenOf s i).2 (childrenOf s i).2.nodes.length i).2 i code) i 0⟩ := by
  have h2 : typOf (childrenOf s i).2 i &&& READDIR_CALLED = 0 := by
    rw [typOf_childrenOf]
    split
    · exact nrc_rc_zero _
    · exact hrc
  unfold readdirSyncF
  rw [hcr]
  simp only [Bool.not_true, if_neg (by decide : ¬(false = true))]
  rw [if_neg (by simp [h2])]

/-! ## Claim C3 -/

/-- C3: when the FS readdir issued by `readdirSync` fails, the caller
always receives `[]` (and an FS call was really made); code ENOTDIR or
EPERM marks the node ENOTDIR and every cached child ENOENT; code ENOENT
marks the node ENOENT; any other code leaves every node's type word
unchanged and only resets the children list's provisional index to 0.
The callback form (`readdirCB`) routes its error through the same
`#readdirFail` and likewise hands every queued callback an empty
list. -/
theorem claim3_readdir_failure (s : Sys) (i : Nat) (code : String)
    (hi : i < s.nodes.length)
    (hcr : canReaddirT (typOf s i) = true)
    (hrc : typOf s i &&& READDIR_CALLED = 0)
    (hb : typOf s i < 1024)
    (hkids : ∀ j ∈ (childValOf s i).ids, j < s.nodes.length) :
    (readdirSyncF s i fun _ => Except.error code).entries = [] ∧
    (readdirSyncF s i fun _ => Except.error code).fsCalled = true ∧
    ((code = codeENOTDIRs ∨ code = codeEPERMs) →
      typOf (readdirSyncF s i fun _ => Except.error code).sys i &&& ENOTDIR ≠ 0 ∧
      ∀ j ∈ (childValOf s i).ids,
        typOf (readdirSyncF s i fun _ => Except.error code).sys j &&& ENOENT ≠ 0) ∧
    (code = codeENOENTs →
      typOf (readdirSyncF s i fun _ => Except.error code).sys i &&& ENOENT ≠ 0) ∧
    (code ≠ codeENOTDIRs ∧ code ≠ codeEPERMs ∧ code ≠ codeENOENTs →
      (∀ j, typOf (readdirSyncF s i fun _ => Except.error code).sys j = typOf s j) ∧
      (childValOf (readdirSyncF s i fun _ => Except.error code).sys i).provisional = 0) ∧
    (∀ ev ∈ (readdirCBComplete s i (Except.error code)).1, ev.entries = []) := by
  have hred := c3red s i code hcr hrc
  have hS2cm : (fullpathM (childrenOf s i).2 (childrenOf s i).2.nodes.length i).2.childMap =
      (childrenOf s i).2.childMap := fullpathM_childMap _ _ _
  have hS2len : (fullpathM (childrenOf s i).2 (childrenOf s i).2.nodes.length i).2.nodes.length =
      s.nodes.length := by rw [fullpathM_length, length_childrenOf]
  have hS2t : ∀ j, typOf (fullpathM (childrenOf s i).2 (childrenOf s i).2.nodes.length i).2 j =
      typOf (childrenOf s i).2 j := fun j => fullpathM_typOf _ _ _ _
  have hco : ∀ j, typOf (childrenOf s i).2 j = typOf s j := by
    intro j
    rw [typOf_childrenOf]
    split
    · next hcond =>
      obtain ⟨_, hj, _⟩ := hcond
      subst hj
      exact and_nrc_id _ hb hrc
    · rfl
  have hS2 : ∀ j, typOf (fullpathM (childrenOf s i).2 (childrenOf s i).2.nodes.length i).2 j =
      typOf s j := fun j => (hS2t j).trans (hco j)
  have hS2cv : cmLookup (fullpathM (childrenOf s i).2 (childrenOf s i).2.nodes.length i).2.childMap i =
      some (childValOf s i) := by rw [hS2cm]; exact cmLookup_childrenOf_self s i
  have hnotdir : typOf s i &&& ENOTDIR = 0 :=
    and_sub _ ENOCHILD _ (by decide) (canReaddirT_enochild _ hcr)
  refine ⟨by rw [hred], by rw [hred], ?_, ?_, ?_, ?_⟩
  · intro hc
    have hfail : readdirFailF
        (fullpathM (childrenOf s i).2 (childrenOf s i).2.nodes.length i).2.nodes.length
        (fullpathM (childrenOf s i).2 (childrenOf s i).2.nodes.length i).2 i code =
        markENOTDIRF (fullpathM (childrenOf s i).2 (childrenOf s i).2.nodes.length i).2.nodes.length
        (fullpathM (childrenOf s i).2 (childrenOf s i).2.nodes.length i).2 i := by
      unfold readdirFailF
      rcases hc with hc | hc <;> subst hc
      · rw [if_pos (show codeENOTDIRs = "ENOTDIR" ∨ codeENOTDIRs = "EPERM" from Or.inl (by decide))]
      · rw [if_pos (show codeEPERMs = "ENOTDIR" ∨ codeEPERMs = "EPERM" from Or.inr (by decide))]
    constructor
    · rw [hred]
      show typOf (setProv _ i 0) i &&& ENOTDIR ≠ 0
      rw [typOf_setProv, hfail]
      exact (markENOTDIRF_spec _ _ i (by rw [hS2len]; exact hi)
        (fun _ => by rw [hS2]; exact hnotdir)).1
    · intro j hj
      rw [hred]
      show typOf (setProv _ i 0) j &&& ENOENT ≠ 0
      rw [typOf_setProv, hfail]
      have hcveq : childValOf (fullpathM (childrenOf s i).2 (childrenOf s i).2.nodes.length i).2 i =
          childValOf s i := by
        unfold childValOf
        rw [hS2cv]
        rfl
      apply markENOTDIRF_kids _ _ i (by rw [hS2len]; omega) (by rw [hS2]; exact hnotdir)
      · rw [hcveq]
        intro k hk
        rw [hS2len]
        exact hkids k hk
      · rw [hcveq]
        exact hj
  · intro hc
    subst hc
    have hfail : readdirFailF
        (fullpathM (childrenOf s i).2 (childrenOf s i).2.nodes.length i).2.nodes.length
        (fullpathM (childrenOf s i).2 (childrenOf s i).2.nodes.length i).2 i codeENOENTs =
        markENOENT1 (fullpathM (childrenOf s i).2 (childrenOf s i).2.nodes.length i).2.nodes.length
        (fullpathM (childrenOf s i).2 (childrenOf s i).2.nodes.length i).2 i := by
      unfold readdirFailF
      rw [if_neg (by decide), if_pos (show codeENOENTs = "ENOENT" from by decide)]
    rw [hred]
    show typOf (setProv _ i 0) i &&& ENOENT ≠ 0
    rw [typOf_setProv, hfail]
    exact (markENOENT1_spec _ _ i (by rw [hS2len]; exact hi) (by rw [hS2len]; omega)).1
  · intro ⟨h1, h2, h3⟩
    have hfail : readdirFailF
        (fullpathM (childrenOf s i).2 (childrenOf s i).2.nodes.length i).2.nodes.length
        (fullpathM (childrenOf s i).2 (childrenOf s i).2.nodes.length i).2 i code =
        { (fullpathM (childrenOf s i).2 (childrenOf s i).2.nodes.length i).2 with
          childMap := cmSet (fullpathM (childrenOf s i).2 (childrenOf s i).2.nodes.length i).2.childMap i
            ⟨(childValOf s i).ids, 0⟩ } := by
      unfold readdirFailF
      rw [if_neg (fun h => h.elim h1 h2),
        if_neg (show ¬(code = "ENOENT") from h3),
        childrenOf_hit _ _ _ hS2cv]
    constructor
    · intro j
      rw [hred]
      show typOf (setProv _ i 0) j = typOf s j
      rw [typOf_setProv, hfail, typOf_mkCM]
      exact hS2 j
    · rw [hred]
      exact setProv_zero_prov _ i
  · intro ev hev
    unfold readdirCBComplete at hev
    simp only at hev
    rw [List.mem_map] at hev
    obtain ⟨cb, _, hcb⟩ := hev
    rw [← hcb]
    show (childValOf (setProv (readdirFailF s.nodes.length s i code) i 0) i).ids.take
      (childValOf (setProv (readdirFailF s.nodes.length s i code) i 0) i).provisional = []
    rw [setProv_zero_prov]
    simp

/-- C3 witness: the failure cases evaluated on the concrete graph with
provisional child `x`: an EIO failure leaves every type word unchanged
and returns `[]`; an ENOTDIR failure marks the root ENOTDIR. -/
theorem claim3_readdir_failure_witness :
    (readdirSyncF runX.2 0 fun _ => Except.error codeEIOs).entries = [] ∧
    (∀ j, typOf (readdirSyncF runX.2 0 fun _ => Except.error codeEIOs).sys j =
      typOf runX.2 j) ∧
    typOf (readdirSyncF runX.2 0 fun _ => Except.error codeENOTDIRs).sys 0 &&&
      ENOTDIR ≠ 0 :=
  ⟨(claim3_readdir_failure runX.2 0 codeEIOs (by decide) (by decide) (by decide)
      (by decide) (by decide)).1,
   ((claim3_readdir_failure runX.2 0 codeEIOs (by decide) (by decide) (by decide)
      (by decide) (by decide)).2.2.2.2.1 (by decide)).1,
   ((claim3_readdir_failure runX.2 0 codeENOTDIRs (by decide) (by decide) (by decide)
      (by decide) (by decide)).2.2.1 (Or.inl rfl)).1⟩

/-! ## Claim C5 -/

theorem getD_ge (l : List α) (n : Nat) (d : α) (h : l.length ≤ n) :
    l.getD n d = d := by
  induction l generalizing n with
  | nil => cases n <;> rfl
  | cons x xs ih =>
    cases n with
    | zero => simp at h
    | succ n => simpa using ih n (by simpa using h)

theorem typOf_oob (s : Sys) (j : Nat) (h : s.nodes.length ≤ j) :
    typOf s j = 0 := by
  unfold typOf getN
  rw [getD_ge _ _ _ h]
  rfl

/-- C5: after a parent's children list is evicted, the next `children()`
call synthesizes an empty list with `provisional = 0`, stores it, and
clears READDIR_CALLED, so the next `readdirSync` really issues an FS
call; conversely while READDIR_CALLED is set (with the list still
cached) `readdirSync` returns `children[0..provisional)` with no FS call
and no state change. -/
theorem claim5_eviction_cache (s : Sys) (p : Nat)
    (fsq : String → Except String (List Dirent)) :
    cmLookup (evict s p).childMap p = none ∧
    (childrenOf (evict s p) p).1 = ⟨[], 0⟩ ∧
    cmLookup (childrenOf (evict s p) p).2.childMap p = some ⟨[], 0⟩ ∧
    typOf (childrenOf (evict s p) p).2 p &&& READDIR_CALLED = 0 ∧
    (canReaddirT (typOf (childrenOf (evict s p) p).2 p) = true →
      (readdirSyncF (childrenOf (evict s p) p).2 p fsq).fsCalled = true) ∧
    (∀ c : Children, cmLookup s.childMap p = some c →
      typOf s p &&& READDIR_CALLED ≠ 0 →
      canReaddirT (typOf s p) = true →
      readdirSyncF s p fsq = ⟨c.ids.take c.provisional, false, s⟩) := by
  have h1 : cmLookup (evict s p).childMap p = none := cmLookup_cmErase_self _ p
  have h2 : (childrenOf (evict s p) p).1 = ⟨[], 0⟩ := by
    unfold childrenOf
    rw [h1]
  have h3 : cmLookup (childrenOf (evict s p) p).2.childMap p = some ⟨[], 0⟩ := by
    unfold childrenOf
    rw [h1]
    exact cmLookup_cmSet_self _ p _
  have h4 : typOf (childrenOf (evict s p) p).2 p &&& READDIR_CALLED = 0 := by
    rw [typOf_childrenOf]
    split
    · exact nrc_rc_zero _
    · next hcond =>
      have : (evict s p).nodes.length ≤ p := by
        by_cases hp : p < (evict s p).nodes.length
        · exact absurd ⟨by rw [h1]; rfl, rfl, hp⟩ hcond
        · omega
      rw [typOf_oob _ _ this]
      decide
  refine ⟨h1, h2, h3, h4, ?_, ?_⟩
  · intro hcan
    unfold readdirSyncF
    rw [hcan]
    simp only [Bool.not_true, if_neg (by decide : ¬(false = true))]
    rw [childrenOf_hit _ _ _ h3, if_neg (by simp [h4])]
    cases fsq (fullpathM (childrenOf (evict s p) p).2
        (childrenOf (evict s p) p).2.nodes.length p).1 <;> rfl
  · intro c hc hset hcan
    unfold readdirSyncF
    rw [hcan]
    simp only [Bool.not_true, if_neg (by decide : ¬(false = true))]
    rw [childrenOf_hit _ _ _ hc, if_pos (by simpa using hset)]

/-- C5 witness: on the concrete graph whose root has been readdir'd
(READDIR_CALLED set, children `[x]` all real), the cached branch returns
`[1]` with no FS call; after evicting the root's list, `children()`
yields the fresh empty value and the next readdir issues FS again. -/
theorem claim5_eviction_cache_witness :
    readdirSyncF c1s2 0 (fun _ => Except.ok []) =
      ⟨[1], false, c1s2⟩ ∧
    cmLookup (evict c1s2 0).childMap 0 = none ∧
    (readdirSyncF (childrenOf (evict c1s2 0) 0).2 0
      (fun _ => Except.ok [])).fsCalled = true :=
  ⟨by
    have h := (claim5_eviction_cache c1s2 0 (fun _ => Except.ok [])).2.2.2.2.2
      ⟨[1], 1⟩ (by decide) (by decide) (by decide)
    simpa using h,
   (claim5_eviction_cache c1s2 0 (fun _ => Except.ok [])).1,
   (claim5_eviction_cache c1s2 0 (fun _ => Except.ok [])).2.2.2.2.1 (by decide)⟩

/-! ## Single-flight `readdirCB` lemmas (C6) -/

/-- Any node-field projection that ignores the memoized fullpath slot is
invariant under `fullpathM`. -/
theorem fullpathM_presF {α : Type} (g : PSNode → α)
    (hg : ∀ n v, g { n with fullpathC := v } = g n) (s : Sys) :
    ∀ (fuel i j : Nat), g (getN (fullpathM s fuel i).2 j) = g (getN s j) := by
  intro fuel
  induction fuel with
  | zero => intro i j; rfl
  | succ fuel ih =>
    intro i j
    unfold fullpathM
    cases hc : (getN s i).fullpathC with
    | some v => simp
    | none =>
      simp only [hc]
      cases hp : (getN s i).parent with
      | none =>
        simp only
        rw [getN_setN]
        split
        · exact hg _ _
        · rfl
      | some p =>
        simp only [hp]
        rw [getN_setN]
        split
        · exact (hg _ _).trans (ih p j)
        · exact ih p j

theorem cbq_fullpathM (s : Sys) (fuel i j : Nat) :
    (getN (fullpathM s fuel i).2 j).cbq = (getN s j).cbq :=
  fullpathM_presF (fun n => n.cbq) (fun _ _ => rfl) s fuel i j

theorem inFlight_fullpathM (s : Sys) (fuel i j : Nat) :
    (getN (fullpathM s fuel i).2 j).inFlight = (getN s j).inFlight :=
  fullpathM_presF (fun n => n.inFlight) (fun _ _ => rfl) s fuel i j

theorem cbq_childrenOf (s : Sys) (i j : Nat) :
    (getN (childrenOf s i).2 j).cbq = (getN s j).cbq := by
  rw [getN_childrenOf]
  split
  · rfl
  · rfl

theorem inFlight_childrenOf (s : Sys) (i j : Nat) :
    (getN (childrenOf s i).2 j).inFlight = (getN s j).inFlight := by
  rw [getN_childrenOf]
  split
  · rfl
  · rfl

theorem cbq_updTyp (s : Sys) (i : Nat) (f : Nat → Nat) (j : Nat) :
    (getN (updTyp s i f) j).cbq = (getN s j).cbq := by
  unfold updTyp
  rw [getN_setN]
  split
  · rfl
  · rfl

theorem cbq_markENOENTs (fuel : Nat) (l : List Nat) (s : Sys) (j : Nat) :
    (getN (markENOENTs fuel s l) j).cbq = (getN s j).cbq :=
  markENOENTs_presField (fun n => n.cbq) (fun _ _ => rfl) fuel l s j

theorem cbq_markENOTDIRF (fuel : Nat) (s : Sys) (i j : Nat) :
    (getN (markENOTDIRF fuel s i) j).cbq = (getN s j).cbq := by
  unfold markENOTDIRF
  by_cases hen : (typOf s i &&& ENOTDIR != 0) = true
  · rw [if_pos hen]
  · rw [if_neg hen]
    simp only
    rw [cbq_markENOENTs, getN_mkCM, cbq_childrenOf, cbq_updTyp]

theorem cbq_readdirFailF (fuel : Nat) (s : Sys) (i j : Nat) (code : String) :
    (getN (readdirFailF fuel s i code) j).cbq = (getN s j).cbq := by
  unfold readdirFailF
  by_cases h1 : code = "ENOTDIR" ∨ code = "EPERM"
  · rw [if_pos h1, cbq_markENOTDIRF]
  · rw [if_neg h1]
    by_cases h2 : code = "ENOENT"
    · rw [if_pos h2]
      exact cbq_markENOENTs fuel [i] s j
    · rw [if_neg h2]
      simp only
      rw [getN_mkCM, cbq_childrenOf]

theorem cbq_setProv (s : Sys) (i p j : Nat) :
    (getN (setProv s i p) j).cbq = (getN s j).cbq := by
  rw [getN_setProv]

/-- Reading a node out of a state whose store has one node appended. -/
theorem getN_appendNode (s : Sys) (nd : PSNode) (m : List (Nat × Children)) (j : Nat) :
    getN { s with nodes := s.nodes ++ [nd], childMap := m } j =
      if j < s.nodes.length then getN s j
      else if j = s.nodes.length then nd else default := by
  show (s.nodes ++ [nd]).getD j default = _
  by_cases hj : j < s.nodes.length
  · rw [if_pos hj, getD_append_lt _ _ _ _ hj]
    rfl
  · rw [if_neg hj, getD_append_ge _ _ _ _ (by omega)]
    by_cases he : j = s.nodes.length
    · rw [if_pos he, show j - s.nodes.length = 0 from by omega]
      rfl
    · rw [if_neg he]
      obtain ⟨k, hk⟩ : ∃ k, j - s.nodes.length = k + 1 :=
        ⟨j - s.nodes.length - 1, by omega⟩
      rw [hk]
      rfl

theorem cbq_addNew (s : Sys) (i : Nat) (e : Dirent) (c : Children) (j : Nat) :
    (getN (readdirAddNewChild s i e c) j).cbq = (getN s j).cbq := by
  unfold readdirAddNewChild
  simp only
  rw [getN_appendNode]
  by_cases hj : j < s.nodes.length
  · rw [if_pos hj]
  · rw [if_neg hj]
    have hr : (getN s j).cbq = [] := by
      show (s.nodes.getD j default).cbq = []
      rw [getD_ge _ _ _ (by omega)]
      rfl
    rw [hr]
    by_cases he : j = s.nodes.length
    · rw [if_pos he]
    · rw [if_neg he]
      decide

theorem cbq_promote (s : Sys) (i : Nat) (e : Dirent) (q idx : Nat) (c : Children)
    (j : Nat) :
    (getN (readdirPromoteChild s i e q idx c) j).cbq = (getN s j).cbq := by
  unfold readdirPromoteChild
  simp only
  rw [getN_mkCM, getN_setN]
  split
  · rfl
  · rfl

theorem cbq_addChild (s : Sys) (i : Nat) (e : Dirent) (j : Nat) :
    (getN (readdirAddChild s i e) j).cbq = (getN s j).cbq := by
  unfold readdirAddChild
  simp only
  generalize ((cmLookup s.childMap i).getD ⟨[], 0⟩ : Children) = c
  cases hfp : findProv s (matchKey s e.name) (c.ids.drop c.provisional) c.provisional with
  | some qj => exact cbq_promote s i e qj.2 qj.1 c j
  | none => exact cbq_addNew s i e c j

theorem cbq_addChildren (i : Nat) : ∀ (es : List Dirent) (s : Sys) (j : Nat),
    (getN (readdirAddChildren s i es) j).cbq = (getN s j).cbq := by
  intro es
  induction es with
  | nil => intro s j; rfl
  | cons e rest ih =>
    intro s j
    show (getN (readdirAddChildren (readdirAddChild s i e) i rest) j).cbq =
      (getN s j).cbq
    rw [ih, cbq_addChild]

theorem cbq_readdirSuccessF (fuel : Nat) (s : Sys) (i j : Nat) :
    (getN (readdirSuccessF fuel s i) j).cbq = (getN s j).cbq := by
  unfold readdirSuccessF
  simp only
  rw [cbq_markENOENTs, cbq_updTyp]

theorem markENOTDIRF_length (fuel : Nat) (s : Sys) (i : Nat) :
    (markENOTDIRF fuel s i).nodes.length = s.nodes.length := by
  unfold markENOTDIRF
  by_cases hen : (typOf s i &&& ENOTDIR != 0) = true
  · rw [if_pos hen]
  · rw [if_neg hen]
    simp only
    rw [markENOENTs_length, length_mkCM, length_childrenOf, length_updTyp]

theorem readdirFailF_length (fuel : Nat) (s : Sys) (i : Nat) (code : String) :
    (readdirFailF fuel s i code).nodes.length = s.nodes.length := by
  unfold readdirFailF
  by_cases h1 : code = "ENOTDIR" ∨ code = "EPERM"
  · rw [if_pos h1, markENOTDIRF_length]
  · rw [if_neg h1]
    by_cases h2 : code = "ENOENT"
    · rw [if_pos h2]
      show (markENOENTs fuel s [i]).nodes.length = _
      rw [markENOENTs_length]
    · rw [if_neg h2]
      simp only
      rw [length_mkCM, length_childrenOf]

theorem length_readdirSuccessF (fuel : Nat) (s : Sys) (i : Nat) :
    (readdirSuccessF fuel s i).nodes.length = s.nodes.length := by
  unfold readdirSuccessF
  simp only
  rw [markENOENTs_length, length_updTyp]

theorem length_promote (s : Sys) (i : Nat) (e : Dirent) (q idx : Nat) (c : Children) :
    (readdirPromoteChild s i e q idx c).nodes.length = s.nodes.length := by
  unfold readdirPromoteChild
  simp only
  rw [length_mkCM, length_setN]

theorem length_addNew (s : Sys) (i : Nat) (e : Dirent) (c : Children) :
    (readdirAddNewChild s i e c).nodes.length = s.nodes.length + 1 := by
  unfold readdirAddNewChild
  simp only
  show (s.nodes ++ [_]).length = s.nodes.length + 1
  simp

theorem length_addChild_le (s : Sys) (i : Nat) (e : Dirent) :
    s.nodes.length ≤ (readdirAddChild s i e).nodes.length := by
  unfold readdirAddChild
  simp only
  generalize ((cmLookup s.childMap i).getD ⟨[], 0⟩ : Children) = c
  cases hfp : findProv s (matchKey s e.name) (c.ids.drop c.provisional) c.provisional with
  | some qj => exact le_of_eq (length_promote s i e qj.2 qj.1 c).symm
  | none =>
    exact le_trans (Nat.le_succ _) (le_of_eq (length_addNew s i e c).symm)

theorem length_addChildren_le (i : Nat) : ∀ (es : List Dirent) (s : Sys),
    s.nodes.length ≤ (readdirAddChildren s i es).nodes.length := by
  intro es
  induction es with
  | nil => intro s; exact Nat.le_refl _
  | cons e rest ih =>
    intro s
    show s.nodes.length ≤ (readdirAddChildren (readdirAddChild s i e) i rest).nodes.length
    exact le_trans (length_addChild_le s i e) (ih _)

theorem ifmt_comm_nrc (t : Nat) :
    IFMT &&& (t &&& NOT_READDIR_CALLED) = IFMT &&& t := by
  rw [Nat.land_comm IFMT, Nat.land_assoc,
    show NOT_READDIR_CALLED &&& IFMT = IFMT from by decide, Nat.land_comm t IFMT]

/-- `canReaddir()` is insensitive to the READDIR_CALLED bit that
`children()` clears on a cache miss. -/
theorem canReaddirT_nrc (t : Nat) :
    canReaddirT (t &&& NOT_READDIR_CALLED) = canReaddirT t := by
  unfold canReaddirT
  rw [Nat.land_assoc, show NOT_READDIR_CALLED &&& ENOCHILD = ENOCHILD from by decide,
    ifmt_comm_nrc]
/-- C6: single-flight coalescing of async `readdir`.  For a readable,
uncached directory node: (a) a first `readdirCB` call (no call in
flight) issues the FS readdir, delivers nothing yet, sets the in-flight
flag and queues its callback; (b) a call arriving while one is in flight
issues no FS readdir and only appends its callback to the queue — and the
state still satisfies every hypothesis with the flag still set, so any
number of concurrent callers coalesce onto the single outstanding FS
call; (c) on completion every queued callback receives the same entry
list, and the queue is drained with the in-flight flag cleared. -/
theorem claim6_single_flight (s : Sys) (i cb : Nat) (az : Bool)
    (fsres : Except String (List Dirent))
    (hi : i < s.nodes.length)
    (hcr : canReaddirT (typOf s i) = true)
    (hrc : typOf s i &&& READDIR_CALLED = 0) :
    ((getN s i).inFlight = false →
      (readdirCBStart s i cb az).2.1 = true ∧
      (readdirCBStart s i cb az).1 = [] ∧
      (getN (readdirCBStart s i cb az).2.2 i).inFlight = true ∧
      (getN (readdirCBStart s i cb az).2.2 i).cbq = (getN s i).cbq ++ [cb]) ∧
    ((getN s i).inFlight = true →
      (readdirCBStart s i cb az).2.1 = false ∧
      (readdirCBStart s i cb az).1 = [] ∧
      (getN (readdirCBStart s i cb az).2.2 i).cbq = (getN s i).cbq ++ [cb] ∧
      (readdirCBStart s i cb az).2.2.nodes.length = s.nodes.length ∧
      typOf (readdirCBStart s i cb az).2.2 i &&& READDIR_CALLED = 0 ∧
      canReaddirT (typOf (readdirCBStart s i cb az).2.2 i) = true ∧
      (getN (readdirCBStart s i cb az).2.2 i).inFlight = true) ∧
    (∃ es, (readdirCBComplete s i fsres).1 =
      (getN s i).cbq.map fun q => CbEvent.mk q es false) ∧
    (getN (readdirCBComplete s i fsres).2 i).inFlight = false ∧
    (getN (readdirCBComplete s i fsres).2 i).cbq = [] := by
  have hi1 : i < (childrenOf s i).2.nodes.length := by
    rw [length_childrenOf]
    exact hi
  have hrc2 : typOf (childrenOf s i).2 i &&& READDIR_CALLED = 0 := by
    rw [typOf_childrenOf]
    split
    · exact nrc_rc_zero _
    · exact hrc
  have hcan2 : canReaddirT (typOf (childrenOf s i).2 i) = true := by
    rw [typOf_childrenOf]
    split
    · rw [canReaddirT_nrc]
      exact hcr
    · exact hcr
  have hb : (typOf (childrenOf s i).2 i &&& READDIR_CALLED != 0) = false := by
    rw [hrc2]
    decide
  have hb' : ¬((typOf (childrenOf s i).2 i &&& READDIR_CALLED != 0) = true) := by
    simp [hb]
  refine ⟨?_, ?_, ?_, ?_, ?_⟩
  · intro h0
    have hfl0 : (getN (setN (childrenOf s i).2 i
        fun n => { n with cbq := n.cbq ++ [cb] }) i).inFlight = false := by
      rw [getN_setN, if_pos ⟨rfl, hi1⟩]
      show (getN (childrenOf s i).2 i).inFlight = false
      rw [inFlight_childrenOf]
      exact h0
    have hfl0' : ¬((getN (setN (childrenOf s i).2 i
        fun n => { n with cbq := n.cbq ++ [cb] }) i).inFlight = true) := by
      simp [hfl0]
    have hi2 : i < (setN (childrenOf s i).2 i
        fun n => { n with cbq := n.cbq ++ [cb] }).nodes.length := by
      rw [length_setN]
      exact hi1
    unfold readdirCBStart
    rw [hcr]
    simp only [Bool.not_true, if_neg (by decide : ¬(false = true))]
    rw [if_neg hb']
    rw [if_neg hfl0']
    refine ⟨rfl, rfl, ?_, ?_⟩
    · rw [inFlight_fullpathM, getN_setN, if_pos ⟨rfl, hi2⟩]
    · rw [cbq_fullpathM, getN_setN, if_pos ⟨rfl, hi2⟩, getN_setN, if_pos ⟨rfl, hi1⟩]
      show (getN (childrenOf s i).2 i).cbq ++ [cb] = (getN s i).cbq ++ [cb]
      rw [cbq_childrenOf]
  · intro h1
    have hfl1 : (getN (setN (childrenOf s i).2 i
        fun n => { n with cbq := n.cbq ++ [cb] }) i).inFlight = true := by
      rw [getN_setN, if_pos ⟨rfl, hi1⟩]
      show (getN (childrenOf s i).2 i).inFlight = true
      rw [inFlight_childrenOf]
      exact h1
    unfold readdirCBStart
    rw [hcr]
    simp only [Bool.not_true, if_neg (by decide : ¬(false = true))]
    rw [if_neg hb']
    rw [if_pos hfl1]
    refine ⟨rfl, rfl, ?_, ?_, ?_, ?_, ?_⟩
    · rw [getN_setN, if_pos ⟨rfl, hi1⟩]
      show (getN (childrenOf s i).2 i).cbq ++ [cb] = (getN s i).cbq ++ [cb]
      rw [cbq_childrenOf]
    · show (setN (childrenOf s i).2 i
        fun n => { n with cbq := n.cbq ++ [cb] }).nodes.length = s.nodes.length
      rw [length_setN, length_childrenOf]
    · rw [typOf_setN_keep (childrenOf s i).2 i i
        (fun n => { n with cbq := n.cbq ++ [cb] }) (fun n => rfl)]
      exact hrc2
    · rw [typOf_setN_keep (childrenOf s i).2 i i
        (fun n => { n with cbq := n.cbq ++ [cb] }) (fun n => rfl)]
      exact hcan2
    · exact hfl1
  · cases fsres with
    | error code =>
      unfold readdirCBComplete
      simp only
      exact ⟨_, by rw [cbq_setProv, cbq_readdirFailF]⟩
    | ok entries =>
      unfold readdirCBComplete
      simp only
      exact ⟨_, by rw [cbq_readdirSuccessF, cbq_addChildren]⟩
  · cases fsres with
    | error code =>
      have hlen : i < (setProv (readdirFailF s.nodes.length s i code) i 0).nodes.length := by
        rw [length_setProv, readdirFailF_length]
        exact hi
      unfold readdirCBComplete
      simp only
      rw [getN_setN, if_pos ⟨rfl, hlen⟩]
    | ok entries =>
      have hlen : i < (readdirSuccessF (readdirAddChildren s i entries).nodes.length
          (readdirAddChildren s i entries) i).nodes.length := by
        rw [length_readdirSuccessF]
        exact Nat.lt_of_lt_of_le hi (length_addChildren_le i entries s)
      unfold readdirCBComplete
      simp only
      rw [getN_setN, if_pos ⟨rfl, hlen⟩]
  · cases fsres with
    | error code =>
      have hlen : i < (setProv (readdirFailF s.nodes.length s i code) i 0).nodes.length := by
        rw [length_setProv, readdirFailF_length]
        exact hi
      unfold readdirCBComplete
      simp only
      rw [getN_setN, if_pos ⟨rfl, hlen⟩]
    | ok entries =>
      have hlen : i < (readdirSuccessF (readdirAddChildren s i entries).nodes.length
          (readdirAddChildren s i entries) i).nodes.length := by
        rw [length_readdirSuccessF]
        exact Nat.lt_of_lt_of_le hi (length_addChildren_le i entries s)
      unfold readdirCBComplete
      simp only
      rw [getN_setN, if_pos ⟨rfl, hlen⟩]
/-- C6 witness: on the concrete graph, the first `readdirCB` on the root
issues FS and sets the flag; a second call while in flight issues
nothing, the queue becomes `[100, 101]`, and completion delivers the
same list `[1]` to both callbacks. -/
theorem claim6_single_flight_witness :
    (readdirCBStart runX.2 0 100 false).2.1 = true ∧
    (getN c6s1 0).inFlight = true ∧
    (readdirCBStart c6s1 0 101 false).2.1 = false ∧
    (getN c6s2 0).cbq = [100, 101] ∧
    (readdirCBComplete c6s2 0 (Except.ok [⟨nameX, .file⟩])).1 =
      [⟨100, [1], false⟩, ⟨101, [1], false⟩] := by
  refine ⟨?_, ?_, ?_, ?_, ?_⟩
  · exact ((claim6_single_flight runX.2 0 100 false (Except.ok []) (by decide)
      (by decide) (by decide)).1 (by decide)).1
  · exact ((claim6_single_flight runX.2 0 100 false (Except.ok []) (by decide)
      (by decide) (by decide)).1 (by decide)).2.2.1
  · exact ((claim6_single_flight c6s1 0 101 false (Except.ok []) (by decide)
      (by decide) (by decide)).2.1 (by decide)).1
  · exact (((claim6_single_flight c6s1 0 101 false (Except.ok []) (by decide)
      (by decide) (by decide)).2.1 (by decide)).2.2.1).trans (by decide)
  · decide
/-! ## Walk cycle-suppression lemmas (C7) -/

theorem getD_mem {α : Type} (d : α) : ∀ (l : List α) (k : Nat),
    k < l.length → l.getD k d ∈ l := by
  intro l
  induction l with
  | nil => intro k h; simp at h
  | cons x xs ih =>
    intro k h
    cases k with
    | zero => exact List.mem_cons_self _ _
    | succ k =>
      show xs.getD k d ∈ x :: xs
      exact List.mem_cons_of_mem _ (ih k (Nat.lt_of_succ_lt_succ h))

theorem take_append_le {α : Type} (e : List α) : ∀ (l : List α) (k : Nat),
    k ≤ l.length → (l ++ e).take k = l.take k := by
  intro l
  induction l with
  | nil =>
    intro k h
    have hz : k = 0 := Nat.le_zero.mp h
    subst hz
    rfl
  | cons x xs ih =>
    intro k h
    cases k with
    | zero => rfl
    | succ k =>
      show x :: (xs ++ e).take k = x :: xs.take k
      rw [ih k (Nat.le_of_succ_le_succ h)]

theorem mem_take_succ {α : Type} (d : α) : ∀ (l : List α) (k : Nat),
    d ∈ l.take k → d ∈ l.take (k + 1) := by
  intro l
  induction l with
  | nil => intro k h; simp at h
  | cons x xs ih =>
    intro k h
    cases k with
    | zero => simp at h
    | succ k =>
      rw [List.take_succ_cons] at h ⊢
      rcases List.mem_cons.mp h with h | h
      · exact h ▸ List.mem_cons_self _ _
      · exact List.mem_cons_of_mem _ (ih k h)

theorem getD_mem_take_succ {α : Type} (d : α) : ∀ (l : List α) (k : Nat),
    k < l.length → l.getD k d ∈ l.take (k + 1) := by
  intro l
  induction l with
  | nil => intro k h; simp at h
  | cons x xs ih =>
    intro k h
    cases k with
    | zero => exact List.mem_cons_self _ _
    | succ k =>
      show xs.getD k d ∈ x :: xs.take (k + 1)
      exact List.mem_cons_of_mem _ (ih k (Nat.lt_of_succ_lt_succ h))

theorem nodup_getD_not_mem_take {α : Type} (d : α) : ∀ (l : List α) (k : Nat),
    k < l.length → l.Nodup → l.getD k d ∉ l.take k := by
  intro l
  induction l with
  | nil => intro k h _; simp at h
  | cons x xs ih =>
    intro k h hn
    cases k with
    | zero => simp
    | succ k =>
      show xs.getD k d ∉ x :: xs.take k
      intro hmem
      rcases List.mem_cons.mp hmem with he | he
      · have hx : x ∉ xs := (List.nodup_cons.mp hn).1
        have hm : xs.getD k d ∈ xs := getD_mem d xs k (Nat.lt_of_succ_lt_succ h)
        rw [he] at hm
        exact hx hm
      · exact ih k (Nat.lt_of_succ_lt_succ h) (List.nodup_cons.mp hn).2 he

/-- `shouldWalk` refuses any candidate already in the visited set. -/
theorem shouldWalk_not_mem (s : Sys) (i : Nat) (dirs : List Nat)
    (wf : Option (Nat → Bool)) (h : shouldWalkF s i dirs wf = true) : i ∉ dirs := by
  unfold shouldWalkF at h
  simp only [Bool.and_eq_true, Bool.not_eq_true'] at h
  have hc := h.1.2
  simp at hc
  exact hc

/-- The inner entry loop only ever appends to the visited set, through the
`shouldWalk` guard, so the set stays duplicate-free and retains its old
elements in place. -/
theorem walkEntries_dirs (fsim : FSim) (follow : Bool) (filt wf : Option (Nat → Bool)) :
    ∀ (es : List Nat) (s : Sys) (dirs results : List Nat), dirs.Nodup →
      (walkEntries fsim follow filt wf s dirs results es).2.1.Nodup ∧
      ∃ ext, (walkEntries fsim follow filt wf s dirs results es).2.1 = dirs ++ ext := by
  intro es
  induction es with
  | nil =>
    intro s dirs results hn
    exact ⟨hn, [], by simp [walkEntries]⟩
  | cons e rest ih =>
    intro s dirs results hn
    have step : ∀ (dirs1 : List Nat), dirs1.Nodup → (∃ e1, dirs1 = dirs ++ e1) →
        ∀ (s1 : Sys) (results1 : List Nat),
        (walkEntries fsim follow filt wf s1 dirs1 results1 rest).2.1.Nodup ∧
        ∃ ext, (walkEntries fsim follow filt wf s1 dirs1 results1 rest).2.1 =
          dirs ++ ext := by
      intro dirs1 h1 he s1 results1
      obtain ⟨e1, he1⟩ := he
      obtain ⟨hnd, ext, hext⟩ := ih s1 dirs1 results1 h1
      exact ⟨hnd, e1 ++ ext, by rw [hext, he1, List.append_assoc]⟩
    have hguard : ∀ (s1 : Sys) (r : Nat),
        (if shouldWalkF s1 r dirs wf then dirs ++ [r] else dirs).Nodup ∧
        ∃ e1, (if shouldWalkF s1 r dirs wf then dirs ++ [r] else dirs) = dirs ++ e1 := by
      intro s1 r
      by_cases hsw : shouldWalkF s1 r dirs wf = true
      · rw [if_pos hsw]
        refine ⟨List.nodup_append.mpr ⟨hn, List.nodup_singleton r, ?_⟩, [r], rfl⟩
        intro a ha hb
        rw [List.mem_singleton] at hb
        subst hb
        exact shouldWalk_not_mem s1 a dirs wf hsw ha
      · rw [if_neg hsw]
        exact ⟨hn, [], by simp⟩
    simp only [walkEntries]
    by_cases hsl : isSymbolicLinkF (typOf s e) = true
    · rw [if_pos hsl]
      by_cases hf : follow = true
      · rw [if_pos hf]
        rcases hrp : realpathSyncF s e fsim.rp with ⟨orr, s1⟩
        cases orr with
        | some r =>
          apply step
          · exact (hguard _ _).1
          · exact (hguard _ _).2
        | none =>
          apply step
          · exact hn
          · exact ⟨[], by simp⟩
      · rw [if_neg hf]
        apply step
        · exact hn
        · exact ⟨[], by simp⟩
    · rw [if_neg hsl]
      apply step
      · exact (hguard _ _).1
      · exact (hguard _ _).2

/-- Loop invariant of `walkSync`'s directory loop: the visited set and the
list of ids actually readdir'd stay duplicate-free, and every readdir'd id
is a member of the visited set. -/
theorem walkGo_inv (fsim : FSim) (follow : Bool) (filt wf : Option (Nat → Bool)) :
    ∀ (fuel : Nat) (s : Sys) (dirs : List Nat) (k : Nat) (results fsCalls : List Nat),
      dirs.Nodup → fsCalls.Nodup → (∀ d ∈ fsCalls, d ∈ dirs.take k) →
      (walkSyncGo fsim follow filt wf fuel s dirs k results fsCalls).2.1.Nodup ∧
      (walkSyncGo fsim follow filt wf fuel s dirs k results fsCalls).2.2.2.1.Nodup ∧
      ∀ d ∈ (walkSyncGo fsim follow filt wf fuel s dirs k results fsCalls).2.2.2.1,
        d ∈ (walkSyncGo fsim follow filt wf fuel s dirs k results fsCalls).2.1 := by
  intro fuel
  induction fuel with
  | zero =>
    intro s dirs k results fsCalls h1 h2 h3
    exact ⟨h1, h2, fun d hd => List.take_subset k dirs (h3 d hd)⟩
  | succ fuel ih =>
    intro s dirs k results fsCalls h1 h2 h3
    simp only [walkSyncGo]
    by_cases hk : k < dirs.length
    · rw [if_pos hk]
      obtain ⟨hnd2, ext, hext⟩ := walkEntries_dirs fsim follow filt wf
        (readdirSyncF s (dirs.getD k 0) fsim.rd).entries
        (readdirSyncF s (dirs.getD k 0) fsim.rd).sys dirs results h1
      apply ih
      · exact hnd2
      · by_cases hfc : (readdirSyncF s (dirs.getD k 0) fsim.rd).fsCalled = true
        · rw [if_pos hfc]
          refine List.nodup_append.mpr ⟨h2, List.nodup_singleton _, ?_⟩
          intro a ha hb
          rw [List.mem_singleton] at hb
          subst hb
          exact nodup_getD_not_mem_take 0 dirs k hk h1 (h3 _ ha)
        · rw [if_neg hfc]
          exact h2
      · intro d hd
        rw [hext, take_append_le ext dirs (k + 1) (by omega)]
        by_cases hfc : (readdirSyncF s (dirs.getD k 0) fsim.rd).fsCalled = true
        · rw [if_pos hfc] at hd
          rcases List.mem_append.mp hd with hd | hd
          · exact mem_take_succ d dirs k (h3 d hd)
          · rw [List.mem_singleton] at hd
            subst hd
            exact getD_mem_take_succ 0 dirs k hk
        · rw [if_neg hfc] at hd
          exact mem_take_succ d dirs k (h3 d hd)
    · rw [if_neg hk]
      exact ⟨h1, h2, fun d hd => List.take_subset k dirs (h3 d hd)⟩
/-- C7: cycle suppression and termination of `walkSync`.  Generally, for
every walk the visited set stays duplicate-free, the set of directories
on which an FS readdir was issued is duplicate-free (each directory is
readdir'd at most once per walk), and every readdir'd id is in the
visited set.  Concretely, on the symlink-cycle filesystem
(`/link → /`) a follow-walk from the root terminates with the loop
exhausted (`k` reached the visited set's length, independent of extra
fuel), emits the root exactly once and the link exactly once
(`results = [0, 1]`), descends only into the root (`dirs = [0]`), and
issues exactly one FS readdir. -/
theorem claim7_walk_cycle :
    (∀ (fsim : FSim) (follow : Bool) (filt wf : Option (Nat → Bool)) (fuel : Nat)
        (s : Sys) (entry : Nat),
      (walkSyncF fsim follow filt wf fuel s entry).2.1.Nodup ∧
      (walkSyncF fsim follow filt wf fuel s entry).2.2.2.1.Nodup ∧
      ∀ d ∈ (walkSyncF fsim follow filt wf fuel s entry).2.2.2.1,
        d ∈ (walkSyncF fsim follow filt wf fuel s entry).2.1) ∧
    c7run.1 = [0, 1] ∧
    c7run.2.1 = [0] ∧
    c7run.2.2.1 = c7run.2.1.length ∧
    c7run.2.2.2.1 = [0] ∧
    (walkSyncF c7fsim true none none 100 run0 0).1 = c7run.1 ∧
    (walkSyncF c7fsim true none none 100 run0 0).2.2.1 = c7run.2.2.1 := by
  refine ⟨?_, by decide, by decide, by decide, by decide, by decide, by decide⟩
  intro fsim follow filt wf fuel s entry
  unfold walkSyncF
  simp only
  exact walkGo_inv fsim follow filt wf fuel s [entry] 0 _ []
    (List.nodup_singleton entry) List.nodup_nil
    (fun d hd => absurd hd (List.not_mem_nil d))

/-- C7 witness: the general cycle-suppression component applied on the
concrete cycle walk — its one readdir'd directory is in the visited set. -/
theorem claim7_walk_cycle_witness :
    0 ∈ (walkSyncF c7fsim true none none 10 run0 0).2.1 :=
  (claim7_walk_cycle.1 c7fsim true none none 10 run0 0).2.2 0 (by decide)
/-! ## `child()` case analysis (C8) -/

/-- `canReaddir()` spelled out: no ENOCHILD bit and a known-compatible
IFMT. -/
theorem canReaddirT_iff (t : Nat) :
    canReaddirT t = true ↔
      (t &&& ENOCHILD = 0 ∧
        (IFMT &&& t = UNKNOWN ∨ IFMT &&& t = IFDIR ∨ IFMT &&& t = IFLNK)) := by
  unfold canReaddirT
  by_cases h1 : t &&& ENOCHILD = 0
  · rw [h1]
    simp [or_assoc]
  · rw [if_pos (by simpa using h1)]
    simp [h1]

/-- C8: the full case analysis of `child()`.  Empty and `'.'` parts
return the node itself with the state untouched; `'..'` returns the
parent, or the node itself at a root; a part whose match key hits an
existing child returns that child unchanged; otherwise a fresh
provisional node is appended — type UNKNOWN, or UNKNOWN|ENOENT exactly
when the parent cannot be readdir'd — with the derived fullpath, the
parent's `provisional` index not bumped, and `canReaddir` itself is
equivalent to "no ENOCHILD bit and IFMT ∈ {UNKNOWN, DIR, LNK}". -/
theorem claim8_child (s : Sys) (p : Nat) :
    (child s p emptyS).1 = p ∧
    (child s p emptyS).2 = s ∧
    (child s p dotS).1 = p ∧
    (child s p dotS).2 = s ∧
    (child s p dotdotS).2 = s ∧
    ((getN s p).parent = none → (child s p dotdotS).1 = p) ∧
    (∀ q, (getN s p).parent = some q → (child s p dotdotS).1 = q) ∧
    (∀ (part : String) (j : Nat), part ≠ "" → part ≠ "." → part ≠ ".." →
      findMatch (childrenOf s p).2 (childrenOf s p).1.ids
        (matchKey (childrenOf s p).2 part) = some j →
      child s p part = (j, (childrenOf s p).2)) ∧
    (∀ (part : String), part ≠ "" → part ≠ "." → part ≠ ".." →
      findMatch (childrenOf s p).2 (childrenOf s p).1.ids
        (matchKey (childrenOf s p).2 part) = none →
      (child s p part).1 = (childrenOf s p).2.nodes.length ∧
      getN (child s p part).2 (child s p part).1 =
        { name := part,
          matchName := matchKey (childrenOf s p).2 part,
          parent := some p,
          typ := if canReaddirT (typOf (childrenOf s p).2 p) then UNKNOWN &&& TYPEMASK
                 else (UNKNOWN &&& TYPEMASK) ||| ENOENT,
          fullpathC := (getN (childrenOf s p).2 p).fullpathC.map fun v =>
            v ++ (if (getN (childrenOf s p).2 p).parent.isSome then "/" else "") ++ part,
          linkTarget := none, realpathC := none, cbq := [], inFlight := false } ∧
      childValOf (child s p part).2 p =
        ⟨(childrenOf s p).1.ids ++ [(childrenOf s p).2.nodes.length],
          (childrenOf s p).1.provisional⟩ ∧
      (child s p part).2.nodes.length = (childrenOf s p).2.nodes.length + 1) ∧
    (∀ t, canReaddirT t = true ↔
      (t &&& ENOCHILD = 0 ∧
        (IFMT &&& t = UNKNOWN ∨ IFMT &&& t = IFDIR ∨ IFMT &&& t = IFLNK))) := by
  refine ⟨?_, ?_, ?_, ?_, ?_, ?_, ?_, ?_, ?_, canReaddirT_iff⟩
  · unfold child
    rw [if_pos (Or.inl (show emptyS = "" from rfl))]
  · unfold child
    rw [if_pos (Or.inl (show emptyS = "" from rfl))]
  · unfold child
    rw [if_pos (Or.inr (show dotS = "." from rfl))]
  · unfold child
    rw [if_pos (Or.inr (show dotS = "." from rfl))]
  · unfold child
    rw [if_neg (show ¬(dotdotS = "" ∨ dotdotS = ".") from by decide),
      if_pos (show dotdotS = ".." from rfl)]
  · intro hp
    unfold child
    rw [if_neg (show ¬(dotdotS = "" ∨ dotdotS = ".") from by decide),
      if_pos (show dotdotS = ".." from rfl), hp]
  · intro q hq
    unfold child
    rw [if_neg (show ¬(dotdotS = "" ∨ dotdotS = ".") from by decide),
      if_pos (show dotdotS = ".." from rfl), hq]
  · intro part j h1 h2 h3 hfm
    unfold child
    rw [if_neg (fun h => Or.elim h h1 h2), if_neg h3]
    simp only
    rw [hfm]
  · intro part h1 h2 h3 hfm
    unfold child
    rw [if_neg (fun h => Or.elim h h1 h2), if_neg h3]
    simp only
    rw [hfm]
    simp only
    refine ⟨by simp, ?_, ?_, ?_⟩
    · rw [getN_appendNode, if_neg (Nat.lt_irrefl _), if_pos rfl]
    · unfold childValOf
      show (cmLookup (cmSet (childrenOf s p).2.childMap p
        ⟨(childrenOf s p).1.ids ++ [(childrenOf s p).2.nodes.length],
          (childrenOf s p).1.provisional⟩) p).getD ⟨[], 0⟩ = _
      rw [cmLookup_cmSet_self]
      rfl
    · show ((childrenOf s p).2.nodes ++ [_]).length = (childrenOf s p).2.nodes.length + 1
      simp
/-- C8 witness: concrete `child()` calls — creating the provisional `x`
under the fresh root (type UNKNOWN, appended as `⟨[1], 0⟩`), hitting the
existing child on a second call, creating a born-ENOENT child under the
ENOTDIR-marked node, and the `''`/`'..'`-at-root cases. -/
theorem claim8_child_witness :
    (child run0 0 nameX).1 = 1 ∧
    typOf (child run0 0 nameX).2 (child run0 0 nameX).1 = UNKNOWN ∧
    childValOf (child run0 0 nameX).2 0 = ⟨[1], 0⟩ ∧
    (child runX.2 0 nameX).1 = 1 ∧
    (child c2s2 1 nameX).1 = 2 ∧
    typOf (child c2s2 1 nameX).2 (child c2s2 1 nameX).1 &&& ENOENT ≠ 0 ∧
    (child run0 0 emptyS).1 = 0 ∧
    (child run0 0 dotdotS).1 = 0 := by
  refine ⟨?_, ?_, ?_, ?_, ?_, ?_, ?_, ?_⟩
  · exact (((claim8_child run0 0).2.2.2.2.2.2.2.2.1 nameX (by decide) (by decide)
      (by decide) (by decide)).1).trans (by decide)
  · have h := congrArg PSNode.typ (((claim8_child run0 0).2.2.2.2.2.2.2.2.1 nameX
      (by decide) (by decide) (by decide) (by decide)).2.1)
    show (getN (child run0 0 nameX).2 (child run0 0 nameX).1).typ = UNKNOWN
    rw [h]
    decide
  · exact (((claim8_child run0 0).2.2.2.2.2.2.2.2.1 nameX (by decide) (by decide)
      (by decide) (by decide)).2.2.1).trans (by decide)
  · exact congrArg Prod.fst ((claim8_child runX.2 0).2.2.2.2.2.2.2.1 nameX 1
      (by decide) (by decide) (by decide) (by decide))
  · exact (((claim8_child c2s2 1).2.2.2.2.2.2.2.2.1 nameX (by decide) (by decide)
      (by decide) (by decide)).1).trans (by decide)
  · have h := congrArg PSNode.typ (((claim8_child c2s2 1).2.2.2.2.2.2.2.2.1 nameX
      (by decide) (by decide) (by decide) (by decide)).2.1)
    show (getN (child c2s2 1 nameX).2 (child c2s2 1 nameX).1).typ &&& ENOENT ≠ 0
    rw [h]
    decide
  · exact (claim8_child run0 0).1
  · exact (claim8_child run0 0).2.2.2.2.2.1 (by decide)
/-! ## Fullpath join rule (C10) -/

theorem parent_fullpathM (s : Sys) (fuel i j : Nat) :
    (getN (fullpathM s fuel i).2 j).parent = (getN s j).parent :=
  fullpathM_presF (fun n => n.parent) (fun _ _ => rfl) s fuel i j

theorem name_fullpathM (s : Sys) (fuel i j : Nat) :
    (getN (fullpathM s fuel i).2 j).name = (getN s j).name :=
  fullpathM_presF (fun n => n.name) (fun _ _ => rfl) s fuel i j

/-- C10: the fullpath join rule.  A non-root node's fullpath is the
parent's fullpath, a `'/'` separator — omitted exactly when the parent
is a root — and the node's name; the memoizing variant returns the cached
slot or applies the same rule; `child()`'s pre-computed fullpath for a
fresh provisional node follows the identical rule (separator iff the
parent is not a root); and concretely the child `x` of the POSIX root
has fullpath `/x`, not `//x`, with the pre-computed and recursive values
agreeing. -/
theorem claim10_fullpath_join :
    (∀ (s : Sys) (fuel i p : Nat), (getN s i).parent = some p →
      fullpathF s (fuel + 1) i =
        fullpathF s fuel p ++ (if (getN s p).parent = none then "" else "/") ++
          (getN s i).name) ∧
    (∀ (s : Sys) (fuel i : Nat) (v : String), (getN s i).fullpathC = some v →
      (fullpathM s (fuel + 1) i).1 = v) ∧
    (∀ (s : Sys) (fuel i p : Nat), (getN s i).fullpathC = none →
      (getN s i).parent = some p →
      (fullpathM s (fuel + 1) i).1 =
        (fullpathM s fuel p).1 ++ (if (getN s p).parent = none then "" else "/") ++
          (getN s i).name) ∧
    (∀ (s : Sys) (p : Nat) (part : String), part ≠ "" → part ≠ "." → part ≠ ".." →
      findMatch (childrenOf s p).2 (childrenOf s p).1.ids
        (matchKey (childrenOf s p).2 part) = none →
      (getN (child s p part).2 (child s p part).1).fullpathC =
        match (getN (childrenOf s p).2 p).fullpathC with
        | some v => some (v ++ (if (getN (childrenOf s p).2 p).parent = none
            then "" else "/") ++ part)
        | none => none) ∧
    fullpathF runX.2 2 1 = pathX ∧
    (fullpathM runX.2 2 1).1 = pathX ∧
    fullpathF runX.2 2 1 ≠ dslashXS ∧
    (getN (child c10s 0 nameY).2 (child c10s 0 nameY).1).fullpathC = some pathY ∧
    fullpathF (child c10s 0 nameY).2 3 (child c10s 0 nameY).1 = pathY := by
  refine ⟨?_, ?_, ?_, ?_, by decide, by decide, by decide, by decide, by decide⟩
  · intro s fuel i p hp
    simp only [fullpathF]
    rw [hp]
  · intro s fuel i v hv
    simp only [fullpathM]
    rw [hv]
  · intro s fuel i p hc hp
    simp only [fullpathM]
    rw [hc, hp]
    simp only
    rw [parent_fullpathM, name_fullpathM]
  · intro s p part h1 h2 h3 hfm
    unfold child
    rw [if_neg (fun h => Or.elim h h1 h2), if_neg h3]
    simp only
    rw [hfm]
    simp only
    rw [getN_appendNode, if_neg (Nat.lt_irrefl _), if_pos rfl]
    show ((getN (childrenOf s p).2 p).fullpathC.map fun v =>
      v ++ (if (getN (childrenOf s p).2 p).parent.isSome then "/" else "") ++ part) = _
    cases hfc : (getN (childrenOf s p).2 p).fullpathC with
    | none => rfl
    | some v =>
      cases hpp : (getN (childrenOf s p).2 p).parent with
      | none => rfl
      | some q => rfl
/-- C10 witness: the join-rule components applied on the concrete graph —
the recurrence at node `x` under the root, the memoized root slot, the
uncached memoizing recurrence, and `child()`'s pre-computed fullpath for
a fresh child of the memoized root. -/
theorem claim10_fullpath_join_witness :
    (fullpathF runX.2 2 1 =
      fullpathF runX.2 1 0 ++ (if (getN runX.2 0).parent = none then "" else "/") ++
        (getN runX.2 1).name) ∧
    ((fullpathM c10s 2 0).1 = slashS) ∧
    ((fullpathM runX.2 2 1).1 =
      (fullpathM runX.2 1 0).1 ++ (if (getN runX.2 0).parent = none then "" else "/") ++
        (getN runX.2 1).name) ∧
    ((getN (child c10s 0 nameY).2 (child c10s 0 nameY).1).fullpathC =
      match (getN (childrenOf c10s 0).2 0).fullpathC with
      | some v => some (v ++ (if (getN (childrenOf c10s 0).2 0).parent = none
          then "" else "/") ++ nameY)
      | none => none) :=
  ⟨claim10_fullpath_join.1 runX.2 1 1 0 (by decide),
   claim10_fullpath_join.2.1 c10s 1 0 slashS (by decide),
   claim10_fullpath_join.2.2.1 runX.2 1 1 0 (by decide) (by decide),
   claim10_fullpath_join.2.2.2.1 c10s 0 nameY (by decide) (by decide) (by decide)
     (by decide)⟩
/-! ## String combination of `resolve` (C9) -/

theorem str_len_zero (s : String) (h : s.length = 0) : s = "" := by
  cases s with
  | mk data =>
    cases data with
    | nil => rfl
    | cons c cs => simp [String.length] at h

theorem str_append_ne_empty (p r : String) (hp : p ≠ "") : p ++ r ≠ "" := by
  intro h
  have h2 := congrArg String.length h
  rw [String.length_append, show ("" : String).length = 0 from rfl] at h2
  exact hp (str_len_zero p (by omega))

/-- One step of the right-to-left segment combination loop. -/
theorem combineGo_cons (p : String) (rest : List String) (r : String) :
    combineGo (p :: rest) r =
      if p = "" ∨ p = "." then combineGo rest r
      else if startsWithSlash p then (if r = "" then p else p ++ "/" ++ r)
      else combineGo rest (if r = "" then p else p ++ "/" ++ r) := rfl

/-- The combination loop never produces the string `'.'`. -/
theorem combineGo_ne_dot : ∀ (l : List String) (r : String), r ≠ "." →
    combineGo l r ≠ "." := by
  intro l
  induction l with
  | nil => intro r h; exact h
  | cons p rest ih =>
    intro r h
    rw [combineGo_cons]
    by_cases hp : p = "" ∨ p = "."
    · rw [if_pos hp]
      exact ih r h
    · rw [if_neg hp]
      have hp' : p ≠ "" := fun he => hp (Or.inl he)
      have hr1 : (if r = "" then p else p ++ "/" ++ r) ≠ "." := by
        by_cases hre : r = ""
        · rw [if_pos hre]
          exact fun he => hp (Or.inr he)
        · rw [if_neg hre]
          intro he
          have h2 := congrArg String.length he
          rw [String.length_append, String.length_append,
            show ("/" : String).length = 1 from rfl,
            show ("." : String).length = 1 from rfl] at h2
          have hpl : p.length ≠ 0 := fun hz => hp' (str_len_zero p hz)
          omega
      by_cases hs : startsWithSlash p = true
      · rw [if_pos hs]
        exact hr1
      · rw [if_neg hs]
        exact ih _ hr1

/-- Seeding the combination loop with a nonempty accumulator is the same
as combining onto the empty seed and appending the accumulator. -/
theorem combineGo_acc : ∀ (l : List String) (r : String), r ≠ "" →
    combineGo l r =
      (if combineGo l "" = "" then r else combineGo l "" ++ "/" ++ r) := by
  intro l
  induction l with
  | nil =>
    intro r h
    show r = if ("" : String) = "" then r else ("" : String) ++ "/" ++ r
    rw [if_pos rfl]
  | cons p rest ih =>
    intro r h
    rw [combineGo_cons, combineGo_cons]
    by_cases hp : p = "" ∨ p = "."
    · rw [if_pos hp, if_pos hp]
      exact ih r h
    · rw [if_neg hp, if_neg hp]
      have hp' : p ≠ "" := fun he => hp (Or.inl he)
      rw [if_neg h, if_pos (rfl : ("" : String) = "")]
      by_cases hs : startsWithSlash p = true
      · rw [if_pos hs, if_pos hs, if_neg hp']
      · rw [if_neg hs, if_neg hs]
        have hne : p ++ "/" ++ r ≠ "" :=
          str_append_ne_empty _ _ (str_append_ne_empty _ _ hp')
        rw [ih (p ++ "/" ++ r) hne, ih p hp']
        by_cases hq : combineGo rest "" = ""
        · rw [if_pos hq, if_pos hq, if_neg hp']
        · rw [if_neg hq, if_neg hq,
            if_neg (str_append_ne_empty _ _ (str_append_ne_empty _ _ hq))]
          simp [String.append_assoc]
/-- C9 counterexample: on a case-insensitive scurry,
`resolve('/', '/foo', '/FOO')` returns `'/FOO'`, while the sequential
composition `resolve(resolve('/', '/foo'), '/FOO')` returns `'/foo'`:
the inner call materializes the child `foo`, and the outer call's
match-key lookup of `FOO` then hits it and answers with the stored
spelling.  The combined strings themselves agree (last conjunct), so the
failure is semantic, not in the right-to-left string combination. -/
theorem claim9_counterexample :
    c9inner.1 = pathFooS ∧
    c9direct.1 = pathFOOS ∧
    c9seq.1 = pathFooS ∧
    c9direct.1 ≠ c9seq.1 ∧
    combineRtl [slashS, pathFooS, pathFOOS] =
      combineRtl [combineRtl [slashS, pathFooS], pathFOOS] := by
  decide

/-- C9 (amended): the right-to-left, stop-at-first-absolute combination
of the path-string arguments is associative as a pure string operation —
`combine(a, b, c) = combine(combine(a, b), c)` for all strings — and on
an exact-matching (case-sensitive, identity-normalization) scurry the
direct and sequential resolutions of the counterexample's inputs agree;
the resolver as a whole is only associative up to match-key collisions
introduced by earlier calls (see the counterexample). -/
theorem claim9_amended :
    (∀ a b c : String,
      combineRtl [a, b, c] = combineRtl [combineRtl [a, b], c]) ∧
    (scurryResolve c9s0cs [slashS, pathFooS, pathFOOS]).1 =
      (scurryResolve c9innercs.2 [c9innercs.1, pathFOOS]).1 := by
  constructor
  · intro a b c
    show combineGo [c, b, a] "" = combineGo [c, combineRtl [a, b]] ""
    by_cases hc : c = "" ∨ c = "."
    · rw [combineGo_cons c [b, a] "", combineGo_cons c [combineRtl [a, b]] "",
        if_pos hc, if_pos hc]
      by_cases hR : combineRtl [a, b] = ""
      · rw [combineGo_cons (combineRtl [a, b]) [] "", if_pos (Or.inl hR)]
        exact hR
      · have hRd : combineRtl [a, b] ≠ "." := combineGo_ne_dot [b, a] "" (by decide)
        rw [combineGo_cons (combineRtl [a, b]) [] "", if_neg (fun h => Or.elim h hR hRd),
          if_pos (rfl : ("" : String) = "")]
        by_cases hs : startsWithSlash (combineRtl [a, b]) = true
        · rw [if_pos hs]
          rfl
        · rw [if_neg hs]
          rfl
    · rw [combineGo_cons c [b, a] "", combineGo_cons c [combineRtl [a, b]] "",
        if_neg hc, if_neg hc, if_pos (rfl : ("" : String) = "")]
      by_cases hs : startsWithSlash c = true
      · rw [if_pos hs, if_pos hs]
      · rw [if_neg hs, if_neg hs]
        have hcne : c ≠ "" := fun he => hc (Or.inl he)
        rw [combineGo_acc [b, a] c hcne,
          combineGo_cons (combineRtl [a, b]) [] c]
        by_cases hR : combineRtl [a, b] = ""
        · rw [if_pos (Or.inl hR), if_pos (show combineGo [b, a] "" = "" from hR)]
          rfl
        · have hRd : combineRtl [a, b] ≠ "." := combineGo_ne_dot [b, a] "" (by decide)
          rw [if_neg (fun h => Or.elim h hR hRd), if_neg hcne,
            if_neg (show ¬(combineGo [b, a] "" = "") from hR)]
          by_cases hs2 : startsWithSlash (combineRtl [a, b]) = true
          · rw [if_pos hs2]
            rfl
          · rw [if_neg hs2]
            rfl
  · decide

end PS
